import Mathlib

/-!
Shallow embedding of the book-catalog API route (`src/app/api/books/route.ts`)
together with the net effect of the Cypher queries it sends to the graph
store.  Nodes carry the store-internal numeric identity (`id(n)` in Cypher);
`nextId` models the store's fresh-identity supply.  Each HTTP handler is a
function from the request data and the current graph state to the new graph
state and the JSON response it produces.
-/

/-- A `Book` node: internal identity, external catalog id, title. -/
structure Book where
  nodeId : Nat
  bookId : String
  title : String
deriving DecidableEq, Repr

/-- An `Author` node. -/
structure Author where
  nodeId : Nat
  name : String
deriving DecidableEq, Repr

/-- A `Genre` node. -/
structure Genre where
  nodeId : Nat
  name : String
deriving DecidableEq, Repr

/-- The graph store: nodes of the three labels plus the two edge sets.
A `wrote` entry `(a, b)` is a `WROTE` edge from author node `a` to book
node `b`; an `inGenre` entry `(b, g)` is an `IN_GENRE` edge from book
node `b` to genre node `g`. -/
structure GraphState where
  nextId : Nat
  books : List Book
  authors : List Author
  genres : List Genre
  wrote : List (Nat × Nat)
  inGenre : List (Nat × Nat)
deriving DecidableEq, Repr

def GraphState.authorIds (st : GraphState) : List Nat := st.authors.map Author.nodeId
def GraphState.bookIds (st : GraphState) : List Nat := st.books.map Book.nodeId
def GraphState.genreIds (st : GraphState) : List Nat := st.genres.map Genre.nodeId

/-- A JSON value as far as the handlers inspect request bodies: the
`authors` / `genres` fields are either absent/null, a string, or an array
of strings. -/
inductive JsonValue where
  | jnull
  | jstr (s : String)
  | jarr (xs : List String)
deriving DecidableEq, Repr

/-- JavaScript truthiness of a `JsonValue` (`[]` is truthy, `""` is not). -/
def JsonValue.truthy : JsonValue → Bool
  | .jnull => false
  | .jstr s => s ≠ ""
  | .jarr _ => true

/-- `Array.isArray`. -/
def JsonValue.isArray : JsonValue → Bool
  | .jarr _ => true
  | _ => false

/-- `.length` of an array value (only ever consulted after `isArray`). -/
def JsonValue.arrLen : JsonValue → Nat
  | .jarr xs => xs.length
  | _ => 0

/-- The string list held by an array value. -/
def JsonValue.asArr : JsonValue → List String
  | .jarr xs => xs
  | _ => []

/-- A parsed request body `{title, authors, genres}`; `title` is absent or
a string. -/
structure ReqBody where
  title : Option String
  authors : JsonValue
  genres : JsonValue
deriving DecidableEq, Repr

/-- Truthiness of the `title` field (`!title` rejects both absence and `""`). -/
def titleTruthy : Option String → Bool
  | none => false
  | some s => s ≠ ""

/-- `toLower(hay) CONTAINS toLower(pat)`: case-insensitive substring test. -/
def ciContains (hay pat : String) : Bool :=
  decide ((pat.toLower).toList <:+: (hay.toLower).toList)

/-! ### GET: the search query builder and its evaluation -/

/-- Query-string inputs of `GET /books`.  `id` is already parsed to the
internal numeric identity (`neo4j.int`); `authors`/`genres` come from
`getAll` and are `[]` when the parameter never occurs. -/
structure GetParams where
  id : Option Nat
  title : Option String
  bookId : Option String
  authors : List String
  genres : List String
deriving DecidableEq, Repr

/-- Presence of an optional string parameter in the JS sense
(`searchParams.get` yields `null` when absent, and `if (x)` also skips `""`). -/
def strPresent : Option String → Bool
  | none => false
  | some s => s ≠ ""

/-- One condition clause of the search query's WHERE. -/
inductive Cond where
  | condId (n : Nat)
  | condTitle (s : String)
  | condBookId (s : String)
  | condAuthors (terms : List String)
  | condGenres (terms : List String)
deriving DecidableEq, Repr

/-- The `conditions` list assembled by GET, in push order. -/
def buildConditions (p : GetParams) : List Cond :=
  (match p.id with | some n => [Cond.condId n] | none => []) ++
  (match p.title with | some s => if s = "" then [] else [Cond.condTitle s] | none => []) ++
  (match p.bookId with | some s => if s = "" then [] else [Cond.condBookId s] | none => []) ++
  (if p.authors.length > 0 then [Cond.condAuthors p.authors] else []) ++
  (if p.genres.length > 0 then [Cond.condGenres p.genres] else [])

/-- Semantics of one condition clause at a book node `b`.
`condAuthors` is the Cypher
`EXISTS { MATCH (b)<-[:WROTE]-(a:Author) WHERE any(t IN $authors WHERE toLower(a.name) CONTAINS toLower(t)) }`,
and `condGenres` the analogous clause over `IN_GENRE`. -/
def evalCond (st : GraphState) (b : Book) : Cond → Bool
  | .condId n => b.nodeId == n
  | .condTitle s => ciContains b.title s
  | .condBookId s => b.bookId == s
  | .condAuthors terms =>
      st.authors.any (fun a =>
        st.wrote.contains (a.nodeId, b.nodeId) &&
        terms.any (fun t => ciContains a.name t))
  | .condGenres terms =>
      st.genres.any (fun g =>
        st.inGenre.contains (b.nodeId, g.nodeId) &&
        terms.any (fun t => ciContains g.name t))

/-- The flat record GET builds from one result row: the book's properties
plus `collect(DISTINCT a)`/`collect(DISTINCT g)` mapped to names (the
`filter(a => a)` step drops the null produced by an OPTIONAL MATCH with no
partner, leaving an empty list). -/
structure BookRecord where
  id : String
  bookId : String
  title : String
  authors : List String
  genres : List String
deriving DecidableEq, Repr

def bookRecordOf (st : GraphState) (b : Book) : BookRecord :=
  { id := toString b.nodeId
    bookId := b.bookId
    title := b.title
    authors := (st.authors.filter (fun a => st.wrote.contains (a.nodeId, b.nodeId))).map Author.name
    genres := (st.genres.filter (fun g => st.inGenre.contains (b.nodeId, g.nodeId))).map Genre.name }

/-- The data list returned by `GET /books`: all books passing every
assembled condition (`join(" AND ")`; no conditions means match all),
one aggregated record per matching book node. -/
def getBooks (st : GraphState) (p : GetParams) : List BookRecord :=
  let conds := buildConditions p
  (st.books.filter (fun b => conds.all (evalCond st b))).map (bookRecordOf st)

/-! ### The merge engine shared by POST and PUT

`MERGE (a:Author { name: authorName }) MERGE (a)-[:WROTE]->(b)` for each
name of the unwound list, and the genre analogue. -/

/-- `MERGE (a:Author { name })`: reuse the node with that exact name if one
exists, otherwise create it with a fresh identity.  Returns the state and
the node's identity. -/
def mergeAuthor (st : GraphState) (name : String) : GraphState × Nat :=
  match st.authors.find? (fun a => a.name == name) with
  | some a => (st, a.nodeId)
  | none =>
      ({ st with
          nextId := st.nextId + 1
          authors := st.authors ++ [⟨st.nextId, name⟩] },
        st.nextId)

/-- `MERGE (a)-[:WROTE]->(b)`: add the edge unless already present. -/
def addWrote (st : GraphState) (aId bId : Nat) : GraphState :=
  if (aId, bId) ∈ st.wrote then st
  else { st with wrote := st.wrote ++ [(aId, bId)] }

/-- One step of `UNWIND $authors`: merge the author node and its edge. -/
def mergeAuthorWrote (bId : Nat) (st : GraphState) (name : String) : GraphState :=
  let p := mergeAuthor st name
  addWrote p.1 p.2 bId

/-- The whole `UNWIND $authors AS authorName MERGE ... MERGE ...` block. -/
def mergeAuthors (st : GraphState) (bId : Nat) (names : List String) : GraphState :=
  names.foldl (mergeAuthorWrote bId) st

/-- `MERGE (g:Genre { name })`. -/
def mergeGenre (st : GraphState) (name : String) : GraphState × Nat :=
  match st.genres.find? (fun g => g.name == name) with
  | some g => (st, g.nodeId)
  | none =>
      ({ st with
          nextId := st.nextId + 1
          genres := st.genres ++ [⟨st.nextId, name⟩] },
        st.nextId)

/-- `MERGE (b)-[:IN_GENRE]->(g)`. -/
def addInGenre (st : GraphState) (bId gId : Nat) : GraphState :=
  if (bId, gId) ∈ st.inGenre then st
  else { st with inGenre := st.inGenre ++ [(bId, gId)] }

/-- One step of `UNWIND $genres`. -/
def mergeGenreIn (bId : Nat) (st : GraphState) (name : String) : GraphState :=
  let p := mergeGenre st name
  addInGenre p.1 bId p.2

/-- The whole `UNWIND $genres` block. -/
def mergeGenres (st : GraphState) (bId : Nat) (names : List String) : GraphState :=
  names.foldl (mergeGenreIn bId) st

/-- Names of the authors holding a `WROTE` edge into book node `bId`
(the final `OPTIONAL MATCH (b)<-[:WROTE]-(a:Author) ... collect(DISTINCT a.name)`). -/
def wroteNamesOf (st : GraphState) (bId : Nat) : List String :=
  (st.authors.filter (fun a => st.wrote.contains (a.nodeId, bId))).map Author.name

/-- Names of the genres reached by an `IN_GENRE` edge from book node `bId`. -/
def genreNamesOf (st : GraphState) (bId : Nat) : List String :=
  (st.genres.filter (fun g => st.inGenre.contains (bId, g.nodeId))).map Genre.name

/-! ### POST: create -/

/-- Response of `POST /books`: both branches answer without an explicit
status, so the HTTP status is always 200; `err` is the caught error's
message. -/
inductive PostResp where
  | ok (data : BookRecord)
  | err (msg : String)
deriving DecidableEq, Repr

def PostResp.httpStatus : PostResp → Nat
  | _ => 200

def PostResp.success : PostResp → Bool
  | .ok _ => true
  | .err _ => false

/-- Net effect of the POST query: create the book node, then run the two
merge blocks.  The returned record reads the resolved author/genre names
off the final graph (the book is fresh, so exactly the merged nodes are
linked to it). -/
def runCreateQuery (st : GraphState) (bookIdStr title : String)
    (authors genres : List String) : GraphState × BookRecord :=
  let b : Book := ⟨st.nextId, bookIdStr, title⟩
  let st1 : GraphState :=
    { st with nextId := st.nextId + 1, books := st.books ++ [b] }
  let st2 := mergeAuthors st1 b.nodeId authors
  let st3 := mergeGenres st2 b.nodeId genres
  (st3,
    { id := toString b.nodeId
      bookId := bookIdStr
      title := title
      authors := wroteNamesOf st3 b.nodeId
      genres := genreNamesOf st3 b.nodeId })

/-- The POST handler.  `bookIdStr` stands for the `uuidv4()` result.
Validation failures throw, are caught, and answer `{success:false, err}`
with no write performed. -/
def postBooks (st : GraphState) (bookIdStr : String) (body : ReqBody) :
    GraphState × PostResp :=
  if ¬ titleTruthy body.title then (st, .err "Book title missing")
  else if ¬ body.authors.truthy ∨ ¬ body.authors.isArray ∨ body.authors.arrLen = 0 then
    (st, .err "At least one author required")
  else if ¬ body.genres.truthy ∨ ¬ body.genres.isArray ∨ body.genres.arrLen = 0 then
    (st, .err "At least one genre required")
  else
    let r := runCreateQuery st bookIdStr (body.title.getD "")
      body.authors.asArr body.genres.asArr
    (r.1, .ok r.2)

/-! ### PUT: update -/

/-- Response of `PUT /books`. -/
inductive PutResp where
  | badRequest
  | notFound
  | serverError (msg : String)
  | ok (data : BookRecord)
deriving DecidableEq, Repr

def PutResp.httpStatus : PutResp → Nat
  | .badRequest => 400
  | .notFound => 404
  | .serverError _ => 500
  | .ok _ => 200

/-- `SET b.title = $title` on the matched node. -/
def setTitle (st : GraphState) (bId : Nat) (t : String) : GraphState :=
  { st with
      books := st.books.map (fun b => if b.nodeId = bId then { b with title := t } else b) }

/-- `OPTIONAL MATCH (b)<-[oldRel:WROTE]-(:Author) DELETE oldRel`: drop every
`WROTE` edge into `bId` whose source is an author node. -/
def deleteWroteEdges (st : GraphState) (bId : Nat) : GraphState :=
  { st with
      wrote := st.wrote.filter (fun e => ¬ (e.2 = bId ∧ e.1 ∈ st.authorIds)) }

/-- `OPTIONAL MATCH (b)-[oldRel2:IN_GENRE]->(:Genre) DELETE oldRel2`. -/
def deleteInGenreEdges (st : GraphState) (bId : Nat) : GraphState :=
  { st with
      inGenre := st.inGenre.filter (fun e => ¬ (e.1 = bId ∧ e.2 ∈ st.genreIds)) }

/-- Net effect of the PUT query.  When the MATCH finds no node the whole
pipeline carries zero rows: nothing is written and no record is returned.
When a matched book reaches `UNWIND` over an empty list the downstream
rows vanish: the writes made so far stand, the later blocks never run,
and RETURN yields no record. -/
def runPutQuery (st : GraphState) (bId : Nat) (title : String)
    (authors genres : List String) : GraphState × Option BookRecord :=
  match st.books.find? (fun b => b.nodeId == bId) with
  | none => (st, none)
  | some _ =>
      let st1 := setTitle st bId title
      let st2 := deleteWroteEdges st1 bId
      let st3 := deleteInGenreEdges st2 bId
      if authors.isEmpty then (st3, none)
      else
        let st4 := mergeAuthors st3 bId authors
        if genres.isEmpty then (st4, none)
        else
          let st5 := mergeGenres st4 bId genres
          (st5, some
            { id := toString bId
              bookId := ((st5.books.find? (fun b => b.nodeId == bId)).map Book.bookId).getD ""
              title := title
              authors := wroteNamesOf st5 bId
              genres := genreNamesOf st5 bId })

/-- The PUT handler.  `idParam` is the parsed `id` query parameter
(`none` when absent).  Body validation errors are thrown and caught,
surfacing as 500 responses. -/
def putBooks (st : GraphState) (idParam : Option Nat) (body : ReqBody) :
    GraphState × PutResp :=
  match idParam with
  | none => (st, .badRequest)
  | some bId =>
      if ¬ titleTruthy body.title then (st, .serverError "Book title missing")
      else if ¬ (body.authors.truthy ∧ body.authors.isArray) then
        (st, .serverError "Authors must be an array")
      else if ¬ (body.genres.truthy ∧ body.genres.isArray) then
        (st, .serverError "Genres must be an array")
      else
        let r := runPutQuery st bId (body.title.getD "")
          body.authors.asArr body.genres.asArr
        match r.2 with
        | none => (r.1, .notFound)
        | some rec => (r.1, .ok rec)

/-! ### DELETE -/

/-- Response of `DELETE /books`. -/
inductive DeleteResp where
  | badRequest
  | ok (deletedCount : Nat)
deriving DecidableEq, Repr

def DeleteResp.httpStatus : DeleteResp → Nat
  | .badRequest => 400
  | .ok _ => 200

/-- Net effect of the DELETE query: `DETACH DELETE` removes each matched
book node and every edge incident to it in either direction;
`count(b)` aggregates the matched rows (one row holding 0 when nothing
matched, in which case nothing is deleted). -/
def runDeleteQuery (st : GraphState) (bId : Nat) : GraphState × Nat :=
  let matched := st.books.filter (fun b => b.nodeId == bId)
  if matched.isEmpty then (st, 0)
  else
    ({ st with
        books := st.books.filter (fun b => ¬ b.nodeId == bId)
        wrote := st.wrote.filter (fun e => ¬ (e.1 = bId ∨ e.2 = bId))
        inGenre := st.inGenre.filter (fun e => ¬ (e.1 = bId ∨ e.2 = bId)) },
      matched.length)

/-- The DELETE handler. -/
def deleteBooks (st : GraphState) (idParam : Option Nat) :
    GraphState × DeleteResp :=
  match idParam with
  | none => (st, .badRequest)
  | some bId =>
      let r := runDeleteQuery st bId
      (r.1, .ok r.2)

/-! ### Well-formedness of a graph state

Facts Neo4j guarantees for any store this route ever produced: node
identities are globally distinct and below the fresh supply, `MERGE` keeps
author/genre names unique, edges are simple and join existing nodes of the
right labels. -/

@[reducible] def WF (st : GraphState) : Prop :=
  st.bookIds.Nodup ∧
  st.authorIds.Nodup ∧
  st.genreIds.Nodup ∧
  (∀ b ∈ st.books, b.nodeId < st.nextId) ∧
  (∀ a ∈ st.authors, a.nodeId < st.nextId) ∧
  (∀ g ∈ st.genres, g.nodeId < st.nextId) ∧
  (st.authors.map Author.name).Nodup ∧
  (st.genres.map Genre.name).Nodup ∧
  st.wrote.Nodup ∧
  st.inGenre.Nodup ∧
  (∀ e ∈ st.wrote, e.1 ∈ st.authorIds ∧ e.2 ∈ st.bookIds) ∧
  (∀ e ∈ st.inGenre, e.1 ∈ st.bookIds ∧ e.2 ∈ st.genreIds)

/-- The intermediate state of the POST query right after
`CREATE (b:Book { bookId: $bookId, title: $title })`. -/
def createdState (st : GraphState) (u t : String) : GraphState :=
  { st with
      nextId := st.nextId + 1
      books := st.books ++ [⟨st.nextId, u, t⟩] }

/-- Spec-side reading of the Cypher `toLower(hay) CONTAINS toLower(pat)`:
case-insensitive substring containment, as a proposition. -/
def CIContainsP (hay pat : String) : Prop :=
  (pat.toLower).toList <:+: (hay.toLower).toList

/-! ### Claim-level properties

Spec-side propositions the claim theorems establish; each is phrased
against the handler functions above. -/

/-- Full-replace contract of a successful PUT (claim C1): response ok,
the WROTE/IN_GENRE link sets of the book afterwards are exactly the
supplied lists, all previously linked Author/Genre entities still exist,
and none of them keeps an edge to this book unless re-listed. -/
def PutFullReplace (st : GraphState) (bId : Nat) (t : String)
    (authors genres : List String) : Prop :=
  (∃ rec, (putBooks st (some bId) ⟨some t, .jarr authors, .jarr genres⟩).2 = .ok rec) ∧
  (∀ m, m ∈ wroteNamesOf (putBooks st (some bId) ⟨some t, .jarr authors, .jarr genres⟩).1 bId ↔
    m ∈ authors) ∧
  (∀ m, m ∈ genreNamesOf (putBooks st (some bId) ⟨some t, .jarr authors, .jarr genres⟩).1 bId ↔
    m ∈ genres) ∧
  (∀ a ∈ st.authors, a ∈ (putBooks st (some bId) ⟨some t, .jarr authors, .jarr genres⟩).1.authors) ∧
  (∀ g ∈ st.genres, g ∈ (putBooks st (some bId) ⟨some t, .jarr authors, .jarr genres⟩).1.genres) ∧
  (∀ a ∈ st.authors, a.name ∉ authors →
    (a.nodeId, bId) ∉ (putBooks st (some bId) ⟨some t, .jarr authors, .jarr genres⟩).1.wrote) ∧
  (∀ g ∈ st.genres, g.name ∉ genres →
    (bId, g.nodeId) ∉ (putBooks st (some bId) ⟨some t, .jarr authors, .jarr genres⟩).1.inGenre)

/-- Effect of a PUT whose authors or genres array is empty on an existing
book (claim C3): 404 response, yet the title was set, the book is linked
to exactly the supplied author list (empty when the list was empty) and
to no genre at all. -/
def PutEmptyListMutation (st : GraphState) (bId : Nat) (t : String)
    (authors genres : List String) : Prop :=
  (putBooks st (some bId) ⟨some t, .jarr authors, .jarr genres⟩).2 = .notFound ∧
  PutResp.notFound.httpStatus = 404 ∧
  (∃ b' ∈ (putBooks st (some bId) ⟨some t, .jarr authors, .jarr genres⟩).1.books,
    b'.nodeId = bId ∧ b'.title = t) ∧
  (∀ m, m ∈ wroteNamesOf (putBooks st (some bId) ⟨some t, .jarr authors, .jarr genres⟩).1 bId ↔
    m ∈ authors) ∧
  (∀ m, m ∉ genreNamesOf (putBooks st (some bId) ⟨some t, .jarr authors, .jarr genres⟩).1 bId)

/-- Status contract of PUT (amended claim C2): 400 when `id` is absent;
404 with no write when no book has the identity; and — provided the
authors and genres arrays are non-empty — a success response when the
book exists. -/
def PutRespContract (st : GraphState) (bId : Nat) (t : String)
    (authors genres : List String) : Prop :=
  (putBooks st none ⟨some t, .jarr authors, .jarr genres⟩ = (st, PutResp.badRequest) ∧
    PutResp.badRequest.httpStatus = 400) ∧
  ((∀ b ∈ st.books, b.nodeId ≠ bId) →
    putBooks st (some bId) ⟨some t, .jarr authors, .jarr genres⟩ = (st, PutResp.notFound) ∧
    PutResp.notFound.httpStatus = 404) ∧
  (authors ≠ [] → genres ≠ [] → (∃ b ∈ st.books, b.nodeId = bId) →
    ∃ rec, (putBooks st (some bId) ⟨some t, .jarr authors, .jarr genres⟩).2 = PutResp.ok rec)

/-- Deduplication/totality contract of GET (claim C6): one aggregated
record per matching book, matching books pairwise distinct, name lists
deduplicated, and empty lists (never a missing value) for unlinked books. -/
def GetDedup (st : GraphState) (p : GetParams) : Prop :=
  (getBooks st p =
    (st.books.filter (fun b => (buildConditions p).all (evalCond st b))).map (bookRecordOf st)) ∧
  ((st.books.filter (fun b => (buildConditions p).all (evalCond st b))).map Book.nodeId).Nodup ∧
  (∀ r ∈ getBooks st p, r.authors.Nodup ∧ r.genres.Nodup) ∧
  (∀ b ∈ st.books, (∀ a ∈ st.authors, (a.nodeId, b.nodeId) ∉ st.wrote) →
    (bookRecordOf st b).authors = []) ∧
  (∀ b ∈ st.books, (∀ g ∈ st.genres, (b.nodeId, g.nodeId) ∉ st.inGenre) →
    (bookRecordOf st b).genres = [])

/-- Name idempotence of the merge engine across two creations
(claim C8): afterwards exactly one Author entity carries the shared
name, it has a WROTE edge to each of the two new books, and the edge
lists stay duplicate-free. -/
def SharedAuthorMerged (st : GraphState) (u1 t1 u2 t2 : String)
    (as1 gs1 as2 gs2 : List String) (n : String) : Prop :=
  (((postBooks (postBooks st u1 ⟨some t1, .jarr as1, .jarr gs1⟩).1 u2
      ⟨some t2, .jarr as2, .jarr gs2⟩).1.authors.map Author.name).count n = 1) ∧
  (∃ a ∈ (postBooks (postBooks st u1 ⟨some t1, .jarr as1, .jarr gs1⟩).1 u2
      ⟨some t2, .jarr as2, .jarr gs2⟩).1.authors,
    a.name = n ∧
    (a.nodeId, st.nextId) ∈ (postBooks (postBooks st u1 ⟨some t1, .jarr as1, .jarr gs1⟩).1 u2
      ⟨some t2, .jarr as2, .jarr gs2⟩).1.wrote ∧
    (a.nodeId, (postBooks st u1 ⟨some t1, .jarr as1, .jarr gs1⟩).1.nextId) ∈
      (postBooks (postBooks st u1 ⟨some t1, .jarr as1, .jarr gs1⟩).1 u2
        ⟨some t2, .jarr as2, .jarr gs2⟩).1.wrote) ∧
  (postBooks (postBooks st u1 ⟨some t1, .jarr as1, .jarr gs1⟩).1 u2
    ⟨some t2, .jarr as2, .jarr gs2⟩).1.wrote.Nodup ∧
  (postBooks (postBooks st u1 ⟨some t1, .jarr as1, .jarr gs1⟩).1 u2
    ⟨some t2, .jarr as2, .jarr gs2⟩).1.inGenre.Nodup ∧
  WF (postBooks (postBooks st u1 ⟨some t1, .jarr as1, .jarr gs1⟩).1 u2
    ⟨some t2, .jarr as2, .jarr gs2⟩).1

/-- Effect of DELETE on an existing book (claim C9): count 1, the book
node and every incident edge are gone, other nodes survive. -/
def DeleteRemovesBook (st : GraphState) (bId : Nat) : Prop :=
  (deleteBooks st (some bId)).2 = .ok 1 ∧
  (∀ b ∈ (deleteBooks st (some bId)).1.books, b.nodeId ≠ bId) ∧
  (∀ e ∈ (deleteBooks st (some bId)).1.wrote, e.1 ≠ bId ∧ e.2 ≠ bId) ∧
  (∀ e ∈ (deleteBooks st (some bId)).1.inGenre, e.1 ≠ bId ∧ e.2 ≠ bId) ∧
  (∀ a ∈ st.authors, a ∈ (deleteBooks st (some bId)).1.authors) ∧
  (∀ g ∈ st.genres, g ∈ (deleteBooks st (some bId)).1.genres)

/-- Create/Update validation asymmetry (claim C10): POST rejects an empty
authors or genres array with no write, while PUT passes validation on
empty arrays and can only answer not-found or ok, never the thrown 500. -/
def ValidationAsymmetry (st : GraphState) (u t : String) (as2 gs : List String) : Prop :=
  (postBooks st u ⟨some t, .jarr [], .jarr gs⟩ = (st, .err "At least one author required")) ∧
  (as2 ≠ [] → postBooks st u ⟨some t, .jarr as2, .jarr []⟩ =
    (st, .err "At least one genre required")) ∧
  (∀ bId msg, (putBooks st (some bId) ⟨some t, .jarr [], .jarr gs⟩).2 ≠ .serverError msg) ∧
  (∀ bId msg, (putBooks st (some bId) ⟨some t, .jarr as2, .jarr []⟩).2 ≠ .serverError msg)

/-! ### Basic bridging lemmas -/

theorem mem_contains_iff {α : Type} [BEq α] [LawfulBEq α] {l : List α} {x : α} :
    l.contains x = true ↔ x ∈ l := by
  simp [List.contains_iff_exists_mem_beq]

theorem wroteNamesOf_mem {st : GraphState} {bId : Nat} {m : String} :
    m ∈ wroteNamesOf st bId ↔
      ∃ a ∈ st.authors, a.name = m ∧ (a.nodeId, bId) ∈ st.wrote := by
  simp only [wroteNamesOf, List.mem_map, List.mem_filter, mem_contains_iff]
  constructor
  · rintro ⟨a, ⟨ha, hw⟩, rfl⟩
    exact ⟨a, ha, rfl, hw⟩
  · rintro ⟨a, ha, rfl, hw⟩
    exact ⟨a, ⟨ha, hw⟩, rfl⟩

theorem genreNamesOf_mem {st : GraphState} {bId : Nat} {m : String} :
    m ∈ genreNamesOf st bId ↔
      ∃ g ∈ st.genres, g.name = m ∧ (bId, g.nodeId) ∈ st.inGenre := by
  simp only [genreNamesOf, List.mem_map, List.mem_filter, mem_contains_iff]
  constructor
  · rintro ⟨g, ⟨hg, hw⟩, rfl⟩
    exact ⟨g, hg, rfl, hw⟩
  · rintro ⟨g, hg, rfl, hw⟩
    exact ⟨g, ⟨hg, hw⟩, rfl⟩

/-- Two authors of a name-deduplicated store that share a name coincide. -/
theorem author_name_unique {st : GraphState}
    (hn : (st.authors.map Author.name).Nodup) {a b : Author}
    (ha : a ∈ st.authors) (hb : b ∈ st.authors) (h : a.name = b.name) : a = b :=
  List.inj_on_of_nodup_map hn ha hb h

theorem author_id_unique {st : GraphState}
    (hn : st.authorIds.Nodup) {a b : Author}
    (ha : a ∈ st.authors) (hb : b ∈ st.authors) (h : a.nodeId = b.nodeId) : a = b :=
  List.inj_on_of_nodup_map hn ha hb h

theorem genre_name_unique {st : GraphState}
    (hn : (st.genres.map Genre.name).Nodup) {a b : Genre}
    (ha : a ∈ st.genres) (hb : b ∈ st.genres) (h : a.name = b.name) : a = b :=
  List.inj_on_of_nodup_map hn ha hb h

theorem genre_id_unique {st : GraphState}
    (hn : st.genreIds.Nodup) {a b : Genre}
    (ha : a ∈ st.genres) (hb : b ∈ st.genres) (h : a.nodeId = b.nodeId) : a = b :=
  List.inj_on_of_nodup_map hn ha hb h

/-! ### Single-step lemmas for the author merge -/

theorem addWrote_mem {st : GraphState} {i b x y : Nat} :
    (x, y) ∈ (addWrote st i b).wrote ↔ (x, y) ∈ st.wrote ∨ (x = i ∧ y = b) := by
  unfold addWrote
  split
  · rename_i hmem
    constructor
    · exact Or.inl
    · rintro (h | ⟨rfl, rfl⟩)
      · exact h
      · exact hmem
  · simp only [List.mem_append, List.mem_singleton, Prod.mk.injEq]

theorem mergeAuthorWrote_books (bId : Nat) (st : GraphState) (n : String) :
    (mergeAuthorWrote bId st n).books = st.books := by
  unfold mergeAuthorWrote mergeAuthor addWrote
  cases st.authors.find? (fun a => a.name == n) <;> dsimp only <;> split <;> rfl

theorem mergeAuthorWrote_genres (bId : Nat) (st : GraphState) (n : String) :
    (mergeAuthorWrote bId st n).genres = st.genres := by
  unfold mergeAuthorWrote mergeAuthor addWrote
  cases st.authors.find? (fun a => a.name == n) <;> dsimp only <;> split <;> rfl

theorem mergeAuthorWrote_inGenre (bId : Nat) (st : GraphState) (n : String) :
    (mergeAuthorWrote bId st n).inGenre = st.inGenre := by
  unfold mergeAuthorWrote mergeAuthor addWrote
  cases st.authors.find? (fun a => a.name == n) <;> dsimp only <;> split <;> rfl

theorem mergeAuthorWrote_bookIds (bId : Nat) (st : GraphState) (n : String) :
    (mergeAuthorWrote bId st n).bookIds = st.bookIds := by
  unfold GraphState.bookIds
  rw [mergeAuthorWrote_books]

theorem mergeAuthorWrote_nextId_le (bId : Nat) (st : GraphState) (n : String) :
    st.nextId ≤ (mergeAuthorWrote bId st n).nextId := by
  unfold mergeAuthorWrote mergeAuthor addWrote
  cases st.authors.find? (fun a => a.name == n) <;> dsimp only <;> split <;>
    (try dsimp only) <;> omega

theorem mergeAuthorWrote_authors_append (bId : Nat) (st : GraphState) (n : String) :
    ∃ l, (mergeAuthorWrote bId st n).authors = st.authors ++ l := by
  unfold mergeAuthorWrote mergeAuthor addWrote
  cases h : st.authors.find? (fun a => a.name == n) with
  | none =>
      dsimp only; split
      · exact ⟨[⟨st.nextId, n⟩], by simp⟩
      · exact ⟨[⟨st.nextId, n⟩], by simp⟩
  | some a =>
      dsimp only; split
      · exact ⟨[], by simp⟩
      · exact ⟨[], by simp⟩

theorem mergeAuthorWrote_wrote_append (bId : Nat) (st : GraphState) (n : String) :
    ∃ l, (mergeAuthorWrote bId st n).wrote = st.wrote ++ l ∧ ∀ e ∈ l, e.2 = bId := by
  unfold mergeAuthorWrote mergeAuthor addWrote
  cases h : st.authors.find? (fun a => a.name == n) with
  | none =>
      dsimp only; split
      · exact ⟨[], by simp, by simp⟩
      · exact ⟨[(st.nextId, bId)], by simp, by simp⟩
  | some a =>
      dsimp only; split
      · exact ⟨[], by simp, by simp⟩
      · exact ⟨[(a.nodeId, bId)], by simp, by simp⟩

theorem mergeAuthorWrote_wrote_iff (bId : Nat) (st : GraphState) (n : String)
    (hn : (st.authors.map Author.name).Nodup) (x y : Nat) :
    (x, y) ∈ (mergeAuthorWrote bId st n).wrote ↔
      (x, y) ∈ st.wrote ∨
        (y = bId ∧ ∃ a ∈ (mergeAuthorWrote bId st n).authors, a.name = n ∧ a.nodeId = x) := by
  cases h : st.authors.find? (fun a => a.name == n) with
  | some a =>
      have ha : a ∈ st.authors := List.mem_of_find?_eq_some h
      have han : a.name = n := by simpa using List.find?_some h
      have hau : (mergeAuthorWrote bId st n).authors = st.authors := by
        unfold mergeAuthorWrote mergeAuthor
        rw [h]; dsimp only
        unfold addWrote; split <;> rfl
      have hw : (x, y) ∈ (mergeAuthorWrote bId st n).wrote ↔
          (x, y) ∈ st.wrote ∨ (x = a.nodeId ∧ y = bId) := by
        unfold mergeAuthorWrote mergeAuthor
        rw [h]; dsimp only
        exact addWrote_mem
      rw [hw, hau]
      constructor
      · rintro (hxy | ⟨rfl, rfl⟩)
        · exact Or.inl hxy
        · exact Or.inr ⟨rfl, a, ha, han, rfl⟩
      · rintro (hxy | ⟨rfl, a', ha', han', hax⟩)
        · exact Or.inl hxy
        · have heq : a' = a := author_name_unique hn ha' ha (by rw [han', han])
          subst heq
          exact Or.inr ⟨hax.symm, rfl⟩
  | none =>
      have hnone := List.find?_eq_none.mp h
      have hau : (mergeAuthorWrote bId st n).authors = st.authors ++ [⟨st.nextId, n⟩] := by
        unfold mergeAuthorWrote mergeAuthor
        rw [h]; dsimp only
        unfold addWrote; split <;> rfl
      have hw : (x, y) ∈ (mergeAuthorWrote bId st n).wrote ↔
          (x, y) ∈ st.wrote ∨ (x = st.nextId ∧ y = bId) := by
        unfold mergeAuthorWrote mergeAuthor
        rw [h]; dsimp only
        exact addWrote_mem
      rw [hw, hau]
      constructor
      · rintro (hxy | ⟨rfl, rfl⟩)
        · exact Or.inl hxy
        · exact Or.inr ⟨rfl, ⟨st.nextId, n⟩, by simp, rfl, rfl⟩
      · rintro (hxy | ⟨rfl, a', ha', han', hax⟩)
        · exact Or.inl hxy
        · rcases List.mem_append.mp ha' with h1 | h2
          · exact absurd (by simp [han'] : (a'.name == n) = true) (hnone a' h1)
          · have heq : a' = ⟨st.nextId, n⟩ := by simpa using h2
            subst heq
            exact Or.inr ⟨hax.symm, rfl⟩

theorem mergeAuthorWrote_linked (bId : Nat) (st : GraphState) (n : String) :
    ∃ a ∈ (mergeAuthorWrote bId st n).authors,
      a.name = n ∧ (a.nodeId, bId) ∈ (mergeAuthorWrote bId st n).wrote := by
  cases h : st.authors.find? (fun a => a.name == n) with
  | some a =>
      have ha : a ∈ st.authors := List.mem_of_find?_eq_some h
      have han : a.name = n := by simpa using List.find?_some h
      refine ⟨a, ?_, han, ?_⟩
      · unfold mergeAuthorWrote mergeAuthor
        rw [h]; dsimp only
        unfold addWrote; split <;> exact ha
      · unfold mergeAuthorWrote mergeAuthor
        rw [h]; dsimp only
        rw [addWrote_mem]
        exact Or.inr ⟨rfl, rfl⟩
  | none =>
      refine ⟨⟨st.nextId, n⟩, ?_, rfl, ?_⟩
      · unfold mergeAuthorWrote mergeAuthor
        rw [h]; dsimp only
        unfold addWrote; split <;> simp
      · unfold mergeAuthorWrote mergeAuthor
        rw [h]; dsimp only
        rw [addWrote_mem]
        exact Or.inr ⟨rfl, rfl⟩

theorem addWrote_WF {st : GraphState} {i b : Nat} (h : WF st)
    (hi : i ∈ st.authorIds) (hb : b ∈ st.bookIds) : WF (addWrote st i b) := by
  obtain ⟨h1, h2, h3, h4, h5, h6, h7, h8, h9, h10, h11, h12⟩ := h
  unfold addWrote
  split
  · exact ⟨h1, h2, h3, h4, h5, h6, h7, h8, h9, h10, h11, h12⟩
  · rename_i hmem
    refine ⟨h1, h2, h3, h4, h5, h6, h7, h8, ?_, h10, ?_, h12⟩
    · refine List.Nodup.append h9 (List.nodup_singleton _) ?_
      intro e he he2
      rw [List.mem_singleton] at he2
      exact hmem (he2 ▸ he)
    · intro e he
      rcases List.mem_append.mp he with h' | h'
      · exact h11 e h'
      · rw [List.mem_singleton] at h'
        subst h'
        exact ⟨hi, hb⟩

theorem mergeAuthorWrote_WF {bId : Nat} {st : GraphState} {n : String}
    (h : WF st) (hb : bId ∈ st.bookIds) : WF (mergeAuthorWrote bId st n) := by
  unfold mergeAuthorWrote
  cases hf : st.authors.find? (fun a => a.name == n) with
  | some a =>
      unfold mergeAuthor
      rw [hf]; dsimp only
      exact addWrote_WF h (List.mem_map_of_mem Author.nodeId (List.mem_of_find?_eq_some hf)) hb
  | none =>
      unfold mergeAuthor
      rw [hf]; dsimp only
      obtain ⟨h1, h2, h3, h4, h5, h6, h7, h8, h9, h10, h11, h12⟩ := h
      have hnone := List.find?_eq_none.mp hf
      have hNfresh : st.nextId ∉ st.authorIds := by
        intro hmem
        rcases List.mem_map.mp hmem with ⟨a, ha, hae⟩
        exact absurd (hae ▸ h5 a ha) (Nat.lt_irrefl _)
      refine addWrote_WF ?_ ?_ ?_
      · refine ⟨?_, ?_, ?_, ?_, ?_, ?_, ?_, ?_, ?_, ?_, ?_, ?_⟩
        · exact h1
        · show ((st.authors ++ [(⟨st.nextId, n⟩ : Author)]).map Author.nodeId).Nodup
          rw [List.map_append]
          refine List.Nodup.append h2 (List.nodup_singleton _) ?_
          intro e he he2
          simp only [List.map_singleton, List.mem_singleton] at he2
          subst he2
          exact hNfresh he
        · exact h3
        · intro b' hb'
          exact Nat.lt_succ_of_lt (h4 b' hb')
        · intro a' ha'
          rcases List.mem_append.mp ha' with h' | h'
          · exact Nat.lt_succ_of_lt (h5 a' h')
          · rw [List.mem_singleton] at h'
            subst h'
            exact Nat.lt_succ_self _
        · intro g' hg'
          exact Nat.lt_succ_of_lt (h6 g' hg')
        · show ((st.authors ++ [(⟨st.nextId, n⟩ : Author)]).map Author.name).Nodup
          rw [List.map_append]
          refine List.Nodup.append h7 (List.nodup_singleton _) ?_
          intro e he he2
          simp only [List.map_singleton, List.mem_singleton] at he2
          subst he2
          rcases List.mem_map.mp he with ⟨a, ha, hae⟩
          exact hnone a ha (by simp [hae])
        · exact h8
        · exact h9
        · exact h10
        · intro e he
          refine ⟨?_, (h11 e he).2⟩
          show e.1 ∈ (st.authors ++ [(⟨st.nextId, n⟩ : Author)]).map Author.nodeId
          rw [List.map_append]
          exact List.mem_append.mpr (Or.inl (h11 e he).1)
        · exact h12
      · show st.nextId ∈ (st.authors ++ [(⟨st.nextId, n⟩ : Author)]).map Author.nodeId
        rw [List.map_append]
        exact List.mem_append.mpr (Or.inr (by simp))
      · exact hb

/-! ### Fold-level lemmas for the author merge block -/

theorem mergeAuthors_nil (st : GraphState) (bId : Nat) :
    mergeAuthors st bId [] = st := rfl

theorem mergeAuthors_cons (st : GraphState) (bId : Nat) (n : String) (ns : List String) :
    mergeAuthors st bId (n :: ns) = mergeAuthors (mergeAuthorWrote bId st n) bId ns := rfl

theorem mergeAuthors_books (bId : Nat) (ns : List String) :
    ∀ st : GraphState, (mergeAuthors st bId ns).books = st.books := by
  induction ns with
  | nil => intro st; rfl
  | cons n ns ih =>
      intro st
      rw [mergeAuthors_cons, ih, mergeAuthorWrote_books]

theorem mergeAuthors_genres (bId : Nat) (ns : List String) :
    ∀ st : GraphState, (mergeAuthors st bId ns).genres = st.genres := by
  induction ns with
  | nil => intro st; rfl
  | cons n ns ih =>
      intro st
      rw [mergeAuthors_cons, ih, mergeAuthorWrote_genres]

theorem mergeAuthors_inGenre (bId : Nat) (ns : List String) :
    ∀ st : GraphState, (mergeAuthors st bId ns).inGenre = st.inGenre := by
  induction ns with
  | nil => intro st; rfl
  | cons n ns ih =>
      intro st
      rw [mergeAuthors_cons, ih, mergeAuthorWrote_inGenre]

theorem mergeAuthors_bookIds (bId : Nat) (ns : List String) (st : GraphState) :
    (mergeAuthors st bId ns).bookIds = st.bookIds := by
  unfold GraphState.bookIds
  rw [mergeAuthors_books]

theorem mergeAuthors_authors_append (bId : Nat) (ns : List String) :
    ∀ st : GraphState, ∃ l, (mergeAuthors st bId ns).authors = st.authors ++ l := by
  induction ns with
  | nil => intro st; exact ⟨[], by rw [mergeAuthors_nil]; simp⟩
  | cons n ns ih =>
      intro st
      rw [mergeAuthors_cons]
      obtain ⟨l1, hl1⟩ := mergeAuthorWrote_authors_append bId st n
      obtain ⟨l2, hl2⟩ := ih (mergeAuthorWrote bId st n)
      exact ⟨l1 ++ l2, by rw [hl2, hl1, List.append_assoc]⟩

theorem mergeAuthors_authors_mono {bId : Nat} {ns : List String} {st : GraphState}
    {a : Author} (h : a ∈ st.authors) : a ∈ (mergeAuthors st bId ns).authors := by
  obtain ⟨l, hl⟩ := mergeAuthors_authors_append bId ns st
  rw [hl]
  exact List.mem_append.mpr (Or.inl h)

theorem mergeAuthors_wrote_append (bId : Nat) (ns : List String) :
    ∀ st : GraphState, ∃ l, (mergeAuthors st bId ns).wrote = st.wrote ++ l ∧
      ∀ e ∈ l, e.2 = bId := by
  induction ns with
  | nil => intro st; exact ⟨[], by rw [mergeAuthors_nil]; simp, by simp⟩
  | cons n ns ih =>
      intro st
      rw [mergeAuthors_cons]
      obtain ⟨l1, hl1, he1⟩ := mergeAuthorWrote_wrote_append bId st n
      obtain ⟨l2, hl2, he2⟩ := ih (mergeAuthorWrote bId st n)
      refine ⟨l1 ++ l2, by rw [hl2, hl1, List.append_assoc], ?_⟩
      intro e he
      rcases List.mem_append.mp he with h' | h'
      · exact he1 e h'
      · exact he2 e h'

theorem mergeAuthors_wrote_mono {bId : Nat} {ns : List String} {st : GraphState}
    {e : Nat × Nat} (h : e ∈ st.wrote) : e ∈ (mergeAuthors st bId ns).wrote := by
  obtain ⟨l, hl, _⟩ := mergeAuthors_wrote_append bId ns st
  rw [hl]
  exact List.mem_append.mpr (Or.inl h)

theorem mergeAuthors_WF (bId : Nat) (ns : List String) :
    ∀ st : GraphState, WF st → bId ∈ st.bookIds → WF (mergeAuthors st bId ns) := by
  induction ns with
  | nil => intro st h _; exact h
  | cons n ns ih =>
      intro st h hb
      rw [mergeAuthors_cons]
      refine ih _ (mergeAuthorWrote_WF h hb) ?_
      rw [mergeAuthorWrote_bookIds]
      exact hb

theorem mergeAuthors_linked (bId : Nat) (ns : List String) :
    ∀ st : GraphState, ∀ n ∈ ns, ∃ a ∈ (mergeAuthors st bId ns).authors,
      a.name = n ∧ (a.nodeId, bId) ∈ (mergeAuthors st bId ns).wrote := by
  induction ns with
  | nil => intro st n hn; exact absurd hn (List.not_mem_nil n)
  | cons m ns ih =>
      intro st n hn
      rw [mergeAuthors_cons]
      rcases List.mem_cons.mp hn with rfl | hn'
      · obtain ⟨a, ha, han, hw⟩ := mergeAuthorWrote_linked bId st n
        exact ⟨a, mergeAuthors_authors_mono ha, han, mergeAuthors_wrote_mono hw⟩
      · exact ih _ n hn'

theorem mergeAuthors_wrote_iff (bId : Nat) (ns : List String) :
    ∀ st : GraphState, WF st → bId ∈ st.bookIds → ∀ x y : Nat,
      ((x, y) ∈ (mergeAuthors st bId ns).wrote ↔
        (x, y) ∈ st.wrote ∨
          (y = bId ∧ ∃ a ∈ (mergeAuthors st bId ns).authors,
            a.name ∈ ns ∧ a.nodeId = x)) := by
  induction ns with
  | nil =>
      intro st _ _ x y
      simp [mergeAuthors_nil]
  | cons n ns ih =>
      intro st h hb x y
      have hWF1 : WF (mergeAuthorWrote bId st n) := mergeAuthorWrote_WF h hb
      have hb1 : bId ∈ (mergeAuthorWrote bId st n).bookIds := by
        rw [mergeAuthorWrote_bookIds]; exact hb
      have hWFfin : WF (mergeAuthors st bId (n :: ns)) := mergeAuthors_WF bId (n :: ns) st h hb
      have hnamesfin : ((mergeAuthors st bId (n :: ns)).authors.map Author.name).Nodup :=
        hWFfin.2.2.2.2.2.2.1
      have hnames : (st.authors.map Author.name).Nodup := h.2.2.2.2.2.2.1
      rw [mergeAuthors_cons] at hnamesfin ⊢
      rw [ih _ hWF1 hb1 x y, mergeAuthorWrote_wrote_iff bId st n hnames x y]
      constructor
      · rintro ((hxy | ⟨hy, a, ha, han, hax⟩) | ⟨hy, a, ha, han, hax⟩)
        · exact Or.inl hxy
        · exact Or.inr ⟨hy, a, mergeAuthors_authors_mono ha, by simp [han], hax⟩
        · exact Or.inr ⟨hy, a, ha, List.mem_cons_of_mem n han, hax⟩
      · rintro (hxy | ⟨hy, a, ha, han, hax⟩)
        · exact Or.inl (Or.inl hxy)
        · rcases List.mem_cons.mp han with heq | hn'
          · obtain ⟨a1, ha1, ha1n, _⟩ := mergeAuthorWrote_linked bId st n
            have ha1fin : a1 ∈ (mergeAuthors (mergeAuthorWrote bId st n) bId ns).authors :=
              mergeAuthors_authors_mono ha1
            have haa1 : a = a1 :=
              List.inj_on_of_nodup_map hnamesfin ha ha1fin (by rw [heq, ha1n])
            exact Or.inl (Or.inr ⟨hy, a1, ha1, ha1n, haa1 ▸ hax⟩)
          · exact Or.inr ⟨hy, a, ha, hn', hax⟩

/-! ### The mirrored lemmas for the genre merge block -/

theorem addInGenre_mem {st : GraphState} {b i x y : Nat} :
    (x, y) ∈ (addInGenre st b i).inGenre ↔
      (x, y) ∈ st.inGenre ∨ (x = b ∧ y = i) := by
  unfold addInGenre
  split
  · rename_i hmem
    constructor
    · exact Or.inl
    · rintro (h | ⟨rfl, rfl⟩)
      · exact h
      · exact hmem
  · simp only [List.mem_append, List.mem_singleton, Prod.mk.injEq]

theorem mergeGenreIn_books (bId : Nat) (st : GraphState) (n : String) :
    (mergeGenreIn bId st n).books = st.books := by
  unfold mergeGenreIn mergeGenre addInGenre
  cases st.genres.find? (fun g => g.name == n) <;> dsimp only <;> split <;> rfl

theorem mergeGenreIn_authors (bId : Nat) (st : GraphState) (n : String) :
    (mergeGenreIn bId st n).authors = st.authors := by
  unfold mergeGenreIn mergeGenre addInGenre
  cases st.genres.find? (fun g => g.name == n) <;> dsimp only <;> split <;> rfl

theorem mergeGenreIn_wrote (bId : Nat) (st : GraphState) (n : String) :
    (mergeGenreIn bId st n).wrote = st.wrote := by
  unfold mergeGenreIn mergeGenre addInGenre
  cases st.genres.find? (fun g => g.name == n) <;> dsimp only <;> split <;> rfl

theorem mergeGenreIn_bookIds (bId : Nat) (st : GraphState) (n : String) :
    (mergeGenreIn bId st n).bookIds = st.bookIds := by
  unfold GraphState.bookIds
  rw [mergeGenreIn_books]

theorem mergeGenreIn_genres_append (bId : Nat) (st : GraphState) (n : String) :
    ∃ l, (mergeGenreIn bId st n).genres = st.genres ++ l := by
  unfold mergeGenreIn mergeGenre addInGenre
  cases h : st.genres.find? (fun g => g.name == n) with
  | none =>
      dsimp only; split
      · exact ⟨[⟨st.nextId, n⟩], by simp⟩
      · exact ⟨[⟨st.nextId, n⟩], by simp⟩
  | some g =>
      dsimp only; split
      · exact ⟨[], by simp⟩
      · exact ⟨[], by simp⟩

theorem mergeGenreIn_inGenre_append (bId : Nat) (st : GraphState) (n : String) :
    ∃ l, (mergeGenreIn bId st n).inGenre = st.inGenre ++ l ∧ ∀ e ∈ l, e.1 = bId := by
  unfold mergeGenreIn mergeGenre addInGenre
  cases h : st.genres.find? (fun g => g.name == n) with
  | none =>
      dsimp only; split
      · exact ⟨[], by simp, by simp⟩
      · exact ⟨[(bId, st.nextId)], by simp, by simp⟩
  | some g =>
      dsimp only; split
      · exact ⟨[], by simp, by simp⟩
      · exact ⟨[(bId, g.nodeId)], by simp, by simp⟩

theorem mergeGenreIn_inGenre_iff (bId : Nat) (st : GraphState) (n : String)
    (hn : (st.genres.map Genre.name).Nodup) (x y : Nat) :
    (x, y) ∈ (mergeGenreIn bId st n).inGenre ↔
      (x, y) ∈ st.inGenre ∨
        (x = bId ∧ ∃ g ∈ (mergeGenreIn bId st n).genres, g.name = n ∧ g.nodeId = y) := by
  cases h : st.genres.find? (fun g => g.name == n) with
  | some g =>
      have hg : g ∈ st.genres := List.mem_of_find?_eq_some h
      have hgn : g.name = n := by simpa using List.find?_some h
      have hgu : (mergeGenreIn bId st n).genres = st.genres := by
        unfold mergeGenreIn mergeGenre
        rw [h]; dsimp only
        unfold addInGenre; split <;> rfl
      have hw : (x, y) ∈ (mergeGenreIn bId st n).inGenre ↔
          (x, y) ∈ st.inGenre ∨ (x = bId ∧ y = g.nodeId) := by
        unfold mergeGenreIn mergeGenre
        rw [h]; dsimp only
        exact addInGenre_mem
      rw [hw, hgu]
      constructor
      · rintro (hxy | ⟨rfl, rfl⟩)
        · exact Or.inl hxy
        · exact Or.inr ⟨rfl, g, hg, hgn, rfl⟩
      · rintro (hxy | ⟨rfl, g', hg', hgn', hgy⟩)
        · exact Or.inl hxy
        · have heq : g' = g := genre_name_unique hn hg' hg (by rw [hgn', hgn])
          subst heq
          exact Or.inr ⟨rfl, hgy.symm⟩
  | none =>
      have hnone := List.find?_eq_none.mp h
      have hgu : (mergeGenreIn bId st n).genres = st.genres ++ [⟨st.nextId, n⟩] := by
        unfold mergeGenreIn mergeGenre
        rw [h]; dsimp only
        unfold addInGenre; split <;> rfl
      have hw : (x, y) ∈ (mergeGenreIn bId st n).inGenre ↔
          (x, y) ∈ st.inGenre ∨ (x = bId ∧ y = st.nextId) := by
        unfold mergeGenreIn mergeGenre
        rw [h]; dsimp only
        exact addInGenre_mem
      rw [hw, hgu]
      constructor
      · rintro (hxy | ⟨rfl, rfl⟩)
        · exact Or.inl hxy
        · exact Or.inr ⟨rfl, ⟨st.nextId, n⟩, by simp, rfl, rfl⟩
      · rintro (hxy | ⟨rfl, g', hg', hgn', hgy⟩)
        · exact Or.inl hxy
        · rcases List.mem_append.mp hg' with h1 | h2
          · exact absurd (by simp [hgn'] : (g'.name == n) = true) (hnone g' h1)
          · have heq : g' = ⟨st.nextId, n⟩ := by simpa using h2
            subst heq
            exact Or.inr ⟨rfl, hgy.symm⟩

theorem mergeGenreIn_linked (bId : Nat) (st : GraphState) (n : String) :
    ∃ g ∈ (mergeGenreIn bId st n).genres,
      g.name = n ∧ (bId, g.nodeId) ∈ (mergeGenreIn bId st n).inGenre := by
  cases h : st.genres.find? (fun g => g.name == n) with
  | some g =>
      have hg : g ∈ st.genres := List.mem_of_find?_eq_some h
      have hgn : g.name = n := by simpa using List.find?_some h
      refine ⟨g, ?_, hgn, ?_⟩
      · unfold mergeGenreIn mergeGenre
        rw [h]; dsimp only
        unfold addInGenre; split <;> exact hg
      · unfold mergeGenreIn mergeGenre
        rw [h]; dsimp only
        rw [addInGenre_mem]
        exact Or.inr ⟨rfl, rfl⟩
  | none =>
      refine ⟨⟨st.nextId, n⟩, ?_, rfl, ?_⟩
      · unfold mergeGenreIn mergeGenre
        rw [h]; dsimp only
        unfold addInGenre; split <;> simp
      · unfold mergeGenreIn mergeGenre
        rw [h]; dsimp only
        rw [addInGenre_mem]
        exact Or.inr ⟨rfl, rfl⟩

theorem addInGenre_WF {st : GraphState} {b i : Nat} (h : WF st)
    (hb : b ∈ st.bookIds) (hi : i ∈ st.genreIds) : WF (addInGenre st b i) := by
  obtain ⟨h1, h2, h3, h4, h5, h6, h7, h8, h9, h10, h11, h12⟩ := h
  unfold addInGenre
  split
  · exact ⟨h1, h2, h3, h4, h5, h6, h7, h8, h9, h10, h11, h12⟩
  · rename_i hmem
    refine ⟨h1, h2, h3, h4, h5, h6, h7, h8, h9, ?_, h11, ?_⟩
    · refine List.Nodup.append h10 (List.nodup_singleton _) ?_
      intro e he he2
      rw [List.mem_singleton] at he2
      exact hmem (he2 ▸ he)
    · intro e he
      rcases List.mem_append.mp he with h' | h'
      · exact h12 e h'
      · rw [List.mem_singleton] at h'
        subst h'
        exact ⟨hb, hi⟩

theorem mergeGenreIn_WF {bId : Nat} {st : GraphState} {n : String}
    (h : WF st) (hb : bId ∈ st.bookIds) : WF (mergeGenreIn bId st n) := by
  unfold mergeGenreIn
  cases hf : st.genres.find? (fun g => g.name == n) with
  | some g =>
      unfold mergeGenre
      rw [hf]; dsimp only
      exact addInGenre_WF h hb (List.mem_map_of_mem Genre.nodeId (List.mem_of_find?_eq_some hf))
  | none =>
      unfold mergeGenre
      rw [hf]; dsimp only
      obtain ⟨h1, h2, h3, h4, h5, h6, h7, h8, h9, h10, h11, h12⟩ := h
      have hnone := List.find?_eq_none.mp hf
      have hNfresh : st.nextId ∉ st.genreIds := by
        intro hmem
        rcases List.mem_map.mp hmem with ⟨g, hg, hge⟩
        exact absurd (hge ▸ h6 g hg) (Nat.lt_irrefl _)
      refine addInGenre_WF ?_ ?_ ?_
      · refine ⟨?_, ?_, ?_, ?_, ?_, ?_, ?_, ?_, ?_, ?_, ?_, ?_⟩
        · exact h1
        · exact h2
        · show ((st.genres ++ [(⟨st.nextId, n⟩ : Genre)]).map Genre.nodeId).Nodup
          rw [List.map_append]
          refine List.Nodup.append h3 (List.nodup_singleton _) ?_
          intro e he he2
          simp only [List.map_singleton, List.mem_singleton] at he2
          subst he2
          exact hNfresh he
        · intro b' hb'
          exact Nat.lt_succ_of_lt (h4 b' hb')
        · intro a' ha'
          exact Nat.lt_succ_of_lt (h5 a' ha')
        · intro g' hg'
          rcases List.mem_append.mp hg' with h' | h'
          · exact Nat.lt_succ_of_lt (h6 g' h')
          · rw [List.mem_singleton] at h'
            subst h'
            exact Nat.lt_succ_self _
        · exact h7
        · show ((st.genres ++ [(⟨st.nextId, n⟩ : Genre)]).map Genre.name).Nodup
          rw [List.map_append]
          refine List.Nodup.append h8 (List.nodup_singleton _) ?_
          intro e he he2
          simp only [List.map_singleton, List.mem_singleton] at he2
          subst he2
          rcases List.mem_map.mp he with ⟨g, hg, hge⟩
          exact hnone g hg (by simp [hge])
        · exact h9
        · exact h10
        · exact h11
        · intro e he
          refine ⟨(h12 e he).1, ?_⟩
          show e.2 ∈ (st.genres ++ [(⟨st.nextId, n⟩ : Genre)]).map Genre.nodeId
          rw [List.map_append]
          exact List.mem_append.mpr (Or.inl (h12 e he).2)
      · exact hb
      · show st.nextId ∈ (st.genres ++ [(⟨st.nextId, n⟩ : Genre)]).map Genre.nodeId
        rw [List.map_append]
        exact List.mem_append.mpr (Or.inr (by simp))

theorem mergeGenres_nil (st : GraphState) (bId : Nat) :
    mergeGenres st bId [] = st := rfl

theorem mergeGenres_cons (st : GraphState) (bId : Nat) (n : String) (ns : List String) :
    mergeGenres st bId (n :: ns) = mergeGenres (mergeGenreIn bId st n) bId ns := rfl

theorem mergeGenres_books (bId : Nat) (ns : List String) :
    ∀ st : GraphState, (mergeGenres st bId ns).books = st.books := by
  induction ns with
  | nil => intro st; rfl
  | cons n ns ih =>
      intro st
      rw [mergeGenres_cons, ih, mergeGenreIn_books]

theorem mergeGenres_authors (bId : Nat) (ns : List String) :
    ∀ st : GraphState, (mergeGenres st bId ns).authors = st.authors := by
  induction ns with
  | nil => intro st; rfl
  | cons n ns ih =>
      intro st
      rw [mergeGenres_cons, ih, mergeGenreIn_authors]

theorem mergeGenres_wrote (bId : Nat) (ns : List String) :
    ∀ st : GraphState, (mergeGenres st bId ns).wrote = st.wrote := by
  induction ns with
  | nil => intro st; rfl
  | cons n ns ih =>
      intro st
      rw [mergeGenres_cons, ih, mergeGenreIn_wrote]

theorem mergeGenres_bookIds (bId : Nat) (ns : List String) (st : GraphState) :
    (mergeGenres st bId ns).bookIds = st.bookIds := by
  unfold GraphState.bookIds
  rw [mergeGenres_books]

theorem mergeGenres_genres_append (bId : Nat) (ns : List String) :
    ∀ st : GraphState, ∃ l, (mergeGenres st bId ns).genres = st.genres ++ l := by
  induction ns with
  | nil => intro st; exact ⟨[], by rw [mergeGenres_nil]; simp⟩
  | cons n ns ih =>
      intro st
      rw [mergeGenres_cons]
      obtain ⟨l1, hl1⟩ := mergeGenreIn_genres_append bId st n
      obtain ⟨l2, hl2⟩ := ih (mergeGenreIn bId st n)
      exact ⟨l1 ++ l2, by rw [hl2, hl1, List.append_assoc]⟩

theorem mergeGenres_genres_mono {bId : Nat} {ns : List String} {st : GraphState}
    {g : Genre} (h : g ∈ st.genres) : g ∈ (mergeGenres st bId ns).genres := by
  obtain ⟨l, hl⟩ := mergeGenres_genres_append bId ns st
  rw [hl]
  exact List.mem_append.mpr (Or.inl h)

theorem mergeGenres_inGenre_append (bId : Nat) (ns : List String) :
    ∀ st : GraphState, ∃ l, (mergeGenres st bId ns).inGenre = st.inGenre ++ l ∧
      ∀ e ∈ l, e.1 = bId := by
  induction ns with
  | nil => intro st; exact ⟨[], by rw [mergeGenres_nil]; simp, by simp⟩
  | cons n ns ih =>
      intro st
      rw [mergeGenres_cons]
      obtain ⟨l1, hl1, he1⟩ := mergeGenreIn_inGenre_append bId st n
      obtain ⟨l2, hl2, he2⟩ := ih (mergeGenreIn bId st n)
      refine ⟨l1 ++ l2, by rw [hl2, hl1, List.append_assoc], ?_⟩
      intro e he
      rcases List.mem_append.mp he with h' | h'
      · exact he1 e h'
      · exact he2 e h'

theorem mergeGenres_inGenre_mono {bId : Nat} {ns : List String} {st : GraphState}
    {e : Nat × Nat} (h : e ∈ st.inGenre) : e ∈ (mergeGenres st bId ns).inGenre := by
  obtain ⟨l, hl, _⟩ := mergeGenres_inGenre_append bId ns st
  rw [hl]
  exact List.mem_append.mpr (Or.inl h)

theorem mergeGenres_WF (bId : Nat) (ns : List String) :
    ∀ st : GraphState, WF st → bId ∈ st.bookIds → WF (mergeGenres st bId ns) := by
  induction ns with
  | nil => intro st h _; exact h
  | cons n ns ih =>
      intro st h hb
      rw [mergeGenres_cons]
      refine ih _ (mergeGenreIn_WF h hb) ?_
      rw [mergeGenreIn_bookIds]
      exact hb

theorem mergeGenres_linked (bId : Nat) (ns : List String) :
    ∀ st : GraphState, ∀ n ∈ ns, ∃ g ∈ (mergeGenres st bId ns).genres,
      g.name = n ∧ (bId, g.nodeId) ∈ (mergeGenres st bId ns).inGenre := by
  induction ns with
  | nil => intro st n hn; exact absurd hn (List.not_mem_nil n)
  | cons m ns ih =>
      intro st n hn
      rw [mergeGenres_cons]
      rcases List.mem_cons.mp hn with rfl | hn'
      · obtain ⟨g, hg, hgn, hw⟩ := mergeGenreIn_linked bId st n
        exact ⟨g, mergeGenres_genres_mono hg, hgn, mergeGenres_inGenre_mono hw⟩
      · exact ih _ n hn'

theorem mergeGenres_inGenre_iff (bId : Nat) (ns : List String) :
    ∀ st : GraphState, WF st → bId ∈ st.bookIds → ∀ x y : Nat,
      ((x, y) ∈ (mergeGenres st bId ns).inGenre ↔
        (x, y) ∈ st.inGenre ∨
          (x = bId ∧ ∃ g ∈ (mergeGenres st bId ns).genres,
            g.name ∈ ns ∧ g.nodeId = y)) := by
  induction ns with
  | nil =>
      intro st _ _ x y
      simp [mergeGenres_nil]
  | cons n ns ih =>
      intro st h hb x y
      have hWF1 : WF (mergeGenreIn bId st n) := mergeGenreIn_WF h hb
      have hb1 : bId ∈ (mergeGenreIn bId st n).bookIds := by
        rw [mergeGenreIn_bookIds]; exact hb
      have hWFfin : WF (mergeGenres st bId (n :: ns)) := mergeGenres_WF bId (n :: ns) st h hb
      have hnamesfin : ((mergeGenres st bId (n :: ns)).genres.map Genre.name).Nodup :=
        hWFfin.2.2.2.2.2.2.2.1
      have hnames : (st.genres.map Genre.name).Nodup := h.2.2.2.2.2.2.2.1
      rw [mergeGenres_cons] at hnamesfin ⊢
      rw [ih _ hWF1 hb1 x y, mergeGenreIn_inGenre_iff bId st n hnames x y]
      constructor
      · rintro ((hxy | ⟨hx, g, hg, hgn, hgy⟩) | ⟨hx, g, hg, hgn, hgy⟩)
        · exact Or.inl hxy
        · exact Or.inr ⟨hx, g, mergeGenres_genres_mono hg, by simp [hgn], hgy⟩
        · exact Or.inr ⟨hx, g, hg, List.mem_cons_of_mem n hgn, hgy⟩
      · rintro (hxy | ⟨hx, g, hg, hgn, hgy⟩)
        · exact Or.inl (Or.inl hxy)
        · rcases List.mem_cons.mp hgn with heq | hn'
          · obtain ⟨g1, hg1, hg1n, _⟩ := mergeGenreIn_linked bId st n
            have hg1fin : g1 ∈ (mergeGenres (mergeGenreIn bId st n) bId ns).genres :=
              mergeGenres_genres_mono hg1
            have hgg1 : g = g1 :=
              List.inj_on_of_nodup_map hnamesfin hg hg1fin (by rw [heq, hg1n])
            exact Or.inl (Or.inr ⟨hx, g1, hg1, hg1n, hgg1 ▸ hgy⟩)
          · exact Or.inr ⟨hx, g, hg, hn', hgy⟩

/-! ### PUT pipeline steps: title update and edge deletion -/

theorem setTitle_bookIds (st : GraphState) (bId : Nat) (t : String) :
    (setTitle st bId t).bookIds = st.bookIds := by
  unfold setTitle GraphState.bookIds
  dsimp only
  rw [List.map_map]
  refine List.map_congr_left ?_
  intro b _
  dsimp only [Function.comp]
  split <;> rfl

theorem setTitle_WF {st : GraphState} {bId : Nat} {t : String} (h : WF st) :
    WF (setTitle st bId t) := by
  obtain ⟨h1, h2, h3, h4, h5, h6, h7, h8, h9, h10, h11, h12⟩ := h
  refine ⟨?_, h2, h3, ?_, h5, h6, h7, h8, h9, h10, ?_, ?_⟩
  · rw [setTitle_bookIds]
    exact h1
  · intro b' hb'
    unfold setTitle at hb'
    rcases List.mem_map.mp hb' with ⟨b, hb, hbe⟩
    have : b'.nodeId = b.nodeId := by
      subst hbe; split <;> rfl
    rw [this]
    exact h4 b hb
  · intro e he
    refine ⟨(h11 e he).1, ?_⟩
    rw [setTitle_bookIds]
    exact (h11 e he).2
  · intro e he
    refine ⟨?_, (h12 e he).2⟩
    rw [setTitle_bookIds]
    exact (h12 e he).1

theorem setTitle_mem {st : GraphState} {bId : Nat} {t : String} {b : Book}
    (hb : b ∈ st.books) (hid : b.nodeId = bId) :
    { b with title := t } ∈ (setTitle st bId t).books := by
  unfold setTitle
  dsimp only
  refine List.mem_map.mpr ⟨b, hb, ?_⟩
  rw [if_pos hid]

theorem deleteWroteEdges_WF {st : GraphState} {bId : Nat} (h : WF st) :
    WF (deleteWroteEdges st bId) := by
  obtain ⟨h1, h2, h3, h4, h5, h6, h7, h8, h9, h10, h11, h12⟩ := h
  refine ⟨h1, h2, h3, h4, h5, h6, h7, h8, List.Nodup.filter _ h9, h10, ?_, h12⟩
  intro e he
  exact h11 e (List.mem_of_mem_filter he)

theorem deleteWroteEdges_clean {st : GraphState} {bId : Nat} (h : WF st) :
    ∀ e ∈ (deleteWroteEdges st bId).wrote, e.2 ≠ bId := by
  obtain ⟨_, _, _, _, _, _, _, _, _, _, h11, _⟩ := h
  intro e he
  unfold deleteWroteEdges at he
  dsimp only at he
  have hmem := List.mem_of_mem_filter he
  have hpred := List.of_mem_filter he
  simp only [decide_eq_true_eq, not_and] at hpred
  intro h2
  exact hpred h2 (h11 e hmem).1

theorem deleteInGenreEdges_WF {st : GraphState} {bId : Nat} (h : WF st) :
    WF (deleteInGenreEdges st bId) := by
  obtain ⟨h1, h2, h3, h4, h5, h6, h7, h8, h9, h10, h11, h12⟩ := h
  refine ⟨h1, h2, h3, h4, h5, h6, h7, h8, h9, List.Nodup.filter _ h10, h11, ?_⟩
  intro e he
  exact h12 e (List.mem_of_mem_filter he)

theorem deleteInGenreEdges_clean {st : GraphState} {bId : Nat} (h : WF st) :
    ∀ e ∈ (deleteInGenreEdges st bId).inGenre, e.1 ≠ bId := by
  obtain ⟨_, _, _, _, _, _, _, _, _, _, _, h12⟩ := h
  intro e he
  unfold deleteInGenreEdges at he
  dsimp only at he
  have hmem := List.mem_of_mem_filter he
  have hpred := List.of_mem_filter he
  simp only [decide_eq_true_eq, not_and] at hpred
  intro h1
  exact hpred h1 (h12 e hmem).2

/-! ### Name-set characterizations after a merge block -/

theorem mergeAuthors_wroteNames (bId : Nat) (ns : List String) (st : GraphState)
    (h : WF st) (hb : bId ∈ st.bookIds) (hclean : ∀ e ∈ st.wrote, e.2 ≠ bId) :
    ∀ m, m ∈ wroteNamesOf (mergeAuthors st bId ns) bId ↔ m ∈ ns := by
  intro m
  constructor
  · intro hm
    rcases wroteNamesOf_mem.mp hm with ⟨a, ha, rfl, hw⟩
    rcases (mergeAuthors_wrote_iff bId ns st h hb a.nodeId bId).mp hw with
      hold | ⟨_, a', ha', han', hax⟩
    · exact absurd rfl (hclean _ hold)
    · obtain ⟨_, hids, _, _, _, _, _, _, _, _, _, _⟩ := mergeAuthors_WF bId ns st h hb
      have heq : a' = a := List.inj_on_of_nodup_map hids ha' ha hax
      exact heq ▸ han'
  · intro hm
    obtain ⟨a, ha, han, hw⟩ := mergeAuthors_linked bId ns st m hm
    exact wroteNamesOf_mem.mpr ⟨a, ha, han, hw⟩

theorem mergeAuthors_no_stale (bId : Nat) (ns : List String) (st : GraphState)
    (h : WF st) (hb : bId ∈ st.bookIds) (hclean : ∀ e ∈ st.wrote, e.2 ≠ bId) :
    ∀ a ∈ st.authors, a.name ∉ ns → (a.nodeId, bId) ∉ (mergeAuthors st bId ns).wrote := by
  intro a ha hnot hw
  rcases (mergeAuthors_wrote_iff bId ns st h hb a.nodeId bId).mp hw with
    hold | ⟨_, a', ha', han', hax⟩
  · exact hclean _ hold rfl
  · obtain ⟨_, hids, _, _, _, _, _, _, _, _, _, _⟩ := mergeAuthors_WF bId ns st h hb
    have heq : a' = a :=
      List.inj_on_of_nodup_map hids ha' (mergeAuthors_authors_mono ha) hax
    exact hnot (heq ▸ han')

theorem mergeGenres_genreNames (bId : Nat) (ns : List String) (st : GraphState)
    (h : WF st) (hb : bId ∈ st.bookIds) (hclean : ∀ e ∈ st.inGenre, e.1 ≠ bId) :
    ∀ m, m ∈ genreNamesOf (mergeGenres st bId ns) bId ↔ m ∈ ns := by
  intro m
  constructor
  · intro hm
    rcases genreNamesOf_mem.mp hm with ⟨g, hg, rfl, hw⟩
    rcases (mergeGenres_inGenre_iff bId ns st h hb bId g.nodeId).mp hw with
      hold | ⟨_, g', hg', hgn', hgy⟩
    · exact absurd rfl (hclean _ hold)
    · obtain ⟨_, _, hids, _, _, _, _, _, _, _, _, _⟩ := mergeGenres_WF bId ns st h hb
      have heq : g' = g := List.inj_on_of_nodup_map hids hg' hg hgy
      exact heq ▸ hgn'
  · intro hm
    obtain ⟨g, hg, hgn, hw⟩ := mergeGenres_linked bId ns st m hm
    exact genreNamesOf_mem.mpr ⟨g, hg, hgn, hw⟩

theorem mergeGenres_no_stale (bId : Nat) (ns : List String) (st : GraphState)
    (h : WF st) (hb : bId ∈ st.bookIds) (hclean : ∀ e ∈ st.inGenre, e.1 ≠ bId) :
    ∀ g ∈ st.genres, g.name ∉ ns → (bId, g.nodeId) ∉ (mergeGenres st bId ns).inGenre := by
  intro g hg hnot hw
  rcases (mergeGenres_inGenre_iff bId ns st h hb bId g.nodeId).mp hw with
    hold | ⟨_, g', hg', hgn', hgy⟩
  · exact hclean _ hold rfl
  · obtain ⟨_, _, hids, _, _, _, _, _, _, _, _, _⟩ := mergeGenres_WF bId ns st h hb
    have heq : g' = g :=
      List.inj_on_of_nodup_map hids hg' (mergeGenres_genres_mono hg) hgy
    exact hnot (heq ▸ hgn')

theorem wroteNamesOf_mergeGenres (bId bId2 : Nat) (ns : List String) (st : GraphState) :
    wroteNamesOf (mergeGenres st bId2 ns) bId = wroteNamesOf st bId := by
  unfold wroteNamesOf
  rw [mergeGenres_authors, mergeGenres_wrote]

theorem genreNamesOf_mergeAuthors (bId bId2 : Nat) (ns : List String) (st : GraphState) :
    genreNamesOf (mergeAuthors st bId2 ns) bId = genreNamesOf st bId := by
  unfold genreNamesOf
  rw [mergeAuthors_genres, mergeAuthors_inGenre]

/-- Net-effect summary of the PUT query when the targeted book exists:
the title is set, the author/genre link sets afterwards are exactly the
supplied lists (empty when the corresponding UNWIND starved the pipeline),
previously linked entities survive as nodes, and a record is returned
exactly when both lists are non-empty. -/
theorem runPutQuery_spec (st : GraphState) (bId : Nat) (t : String)
    (authors genres : List String) (h : WF st)
    (hex : ∃ b ∈ st.books, b.nodeId = bId) :
    WF (runPutQuery st bId t authors genres).1 ∧
    (∃ b' ∈ (runPutQuery st bId t authors genres).1.books,
      b'.nodeId = bId ∧ b'.title = t) ∧
    (∀ a ∈ st.authors, a ∈ (runPutQuery st bId t authors genres).1.authors) ∧
    (∀ g ∈ st.genres, g ∈ (runPutQuery st bId t authors genres).1.genres) ∧
    (∀ m, m ∈ wroteNamesOf (runPutQuery st bId t authors genres).1 bId ↔ m ∈ authors) ∧
    (∀ m, m ∈ genreNamesOf (runPutQuery st bId t authors genres).1 bId ↔
      (authors ≠ [] ∧ m ∈ genres)) ∧
    ((runPutQuery st bId t authors genres).2.isSome ↔ (authors ≠ [] ∧ genres ≠ [])) ∧
    (∀ a ∈ st.authors, a.name ∉ authors →
      (a.nodeId, bId) ∉ (runPutQuery st bId t authors genres).1.wrote) ∧
    (∀ g ∈ st.genres, g.name ∉ genres →
      (bId, g.nodeId) ∉ (runPutQuery st bId t authors genres).1.inGenre) := by
  obtain ⟨b0, hb0, hb0id⟩ := hex
  obtain ⟨bf, hfind⟩ : ∃ bf, st.books.find? (fun b => b.nodeId == bId) = some bf := by
    refine Option.isSome_iff_exists.mp ?_
    rw [List.find?_isSome]
    exact ⟨b0, hb0, by simp [hb0id]⟩
  have hWF1 : WF (setTitle st bId t) := setTitle_WF h
  have hWF2 : WF (deleteWroteEdges (setTitle st bId t) bId) := deleteWroteEdges_WF hWF1
  have hWF3 : WF (deleteInGenreEdges (deleteWroteEdges (setTitle st bId t) bId) bId) :=
    deleteInGenreEdges_WF hWF2
  have hbid3 : bId ∈
      (deleteInGenreEdges (deleteWroteEdges (setTitle st bId t) bId) bId).bookIds := by
    show bId ∈ (setTitle st bId t).bookIds
    rw [setTitle_bookIds]
    exact hb0id ▸ List.mem_map_of_mem Book.nodeId hb0
  have hcw : ∀ e ∈ (deleteInGenreEdges (deleteWroteEdges (setTitle st bId t) bId) bId).wrote,
      e.2 ≠ bId := by
    show ∀ e ∈ (deleteWroteEdges (setTitle st bId t) bId).wrote, e.2 ≠ bId
    exact deleteWroteEdges_clean hWF1
  have hcg : ∀ e ∈ (deleteInGenreEdges (deleteWroteEdges (setTitle st bId t) bId) bId).inGenre,
      e.1 ≠ bId := deleteInGenreEdges_clean hWF2
  have hbook3 : { b0 with title := t } ∈
      (deleteInGenreEdges (deleteWroteEdges (setTitle st bId t) bId) bId).books :=
    setTitle_mem hb0 hb0id
  unfold runPutQuery
  rw [hfind]
  dsimp only
  by_cases ha : authors = []
  · subst ha
    rw [if_pos (show ([] : List String).isEmpty = true from rfl)]
    try dsimp only
    refine ⟨hWF3, ⟨{ b0 with title := t }, hbook3, hb0id, rfl⟩, ?_, ?_, ?_, ?_, by simp, ?_, ?_⟩
    · intro a ha; exact ha
    · intro g hg; exact hg
    · intro m
      simp only [List.not_mem_nil, iff_false]
      intro hm
      rcases wroteNamesOf_mem.mp hm with ⟨a, _, _, hw⟩
      exact hcw _ hw rfl
    · intro m
      simp only [ne_eq, not_true_eq_false, false_and, iff_false]
      intro hm
      rcases genreNamesOf_mem.mp hm with ⟨g, _, _, hw⟩
      exact hcg _ hw rfl
    · intro a _ _ hw
      exact hcw _ hw rfl
    · intro g _ _ hw
      exact hcg _ hw rfl
  · rw [if_neg (by simp [ha])]
    try dsimp only
    have hWF4 := mergeAuthors_WF bId authors _ hWF3 hbid3
    have hbid4 : bId ∈ (mergeAuthors
        (deleteInGenreEdges (deleteWroteEdges (setTitle st bId t) bId) bId) bId authors).bookIds := by
      rw [mergeAuthors_bookIds]
      exact hbid3
    have hcg4 : ∀ e ∈ (mergeAuthors
        (deleteInGenreEdges (deleteWroteEdges (setTitle st bId t) bId) bId) bId authors).inGenre,
        e.1 ≠ bId := by
      rw [mergeAuthors_inGenre]
      exact hcg
    by_cases hg : genres = []
    · subst hg
      rw [if_pos (show ([] : List String).isEmpty = true from rfl)]
      try dsimp only
      refine ⟨hWF4, ?_, ?_, ?_, ?_, ?_, by simp, ?_, ?_⟩
      · refine ⟨{ b0 with title := t }, ?_, hb0id, rfl⟩
        rw [mergeAuthors_books]
        exact hbook3
      · intro a ha'
        exact mergeAuthors_authors_mono ha'
      · intro g hg'
        rw [mergeAuthors_genres]
        exact hg'
      · exact mergeAuthors_wroteNames bId authors _ hWF3 hbid3 hcw
      · intro m
        simp only [List.not_mem_nil, and_false, iff_false]
        intro hm
        rw [genreNamesOf_mergeAuthors] at hm
        rcases genreNamesOf_mem.mp hm with ⟨g, _, _, hw⟩
        exact hcg _ hw rfl
      · exact mergeAuthors_no_stale bId authors _ hWF3 hbid3 hcw
      · intro g hg' hnot hw
        rw [mergeAuthors_inGenre] at hw
        exact hcg _ hw rfl
    · rw [if_neg (by simp [hg])]
      try dsimp only
      have hWF5 := mergeGenres_WF bId genres _ hWF4 hbid4
      refine ⟨hWF5, ?_, ?_, ?_, ?_, ?_, by simp [ha, hg], ?_, ?_⟩
      · refine ⟨{ b0 with title := t }, ?_, hb0id, rfl⟩
        rw [mergeGenres_books, mergeAuthors_books]
        exact hbook3
      · intro a ha'
        rw [mergeGenres_authors]
        exact mergeAuthors_authors_mono ha'
      · intro g hg'
        refine mergeGenres_genres_mono ?_
        rw [mergeAuthors_genres]
        exact hg'
      · intro m
        rw [wroteNamesOf_mergeGenres]
        exact mergeAuthors_wroteNames bId authors _ hWF3 hbid3 hcw m
      · intro m
        simp only [ha, ne_eq, not_false_iff, true_and]
        exact mergeGenres_genreNames bId genres _ hWF4 hbid4 hcg4 m
      · intro a ha' hnot
        rw [mergeGenres_wrote]
        exact mergeAuthors_no_stale bId authors _ hWF3 hbid3 hcw a ha' hnot
      · intro g hg' hnot
        refine mergeGenres_no_stale bId genres _ hWF4 hbid4 hcg4 g ?_ hnot
        rw [mergeAuthors_genres]
        exact hg'

/-! ### Handler-level bridging lemmas -/

theorem putBooks_valid_state (st : GraphState) (bId : Nat) (t : String)
    (as gs : List String) (ht : t ≠ "") :
    (putBooks st (some bId) ⟨some t, .jarr as, .jarr gs⟩).1 =
      (runPutQuery st bId t as gs).1 := by
  unfold putBooks
  dsimp only
  rw [if_neg (by simp [titleTruthy, ht]), if_neg (by simp [JsonValue.truthy, JsonValue.isArray]),
    if_neg (by simp [JsonValue.truthy, JsonValue.isArray])]
  dsimp only [JsonValue.asArr, Option.getD]
  cases hr : (runPutQuery st bId t as gs).2 <;> simp [hr]

theorem putBooks_valid_resp_nf (st : GraphState) (bId : Nat) (t : String)
    (as gs : List String) (ht : t ≠ "")
    (h2 : (runPutQuery st bId t as gs).2 = none) :
    (putBooks st (some bId) ⟨some t, .jarr as, .jarr gs⟩).2 = .notFound := by
  unfold putBooks
  dsimp only
  rw [if_neg (by simp [titleTruthy, ht]), if_neg (by simp [JsonValue.truthy, JsonValue.isArray]),
    if_neg (by simp [JsonValue.truthy, JsonValue.isArray])]
  dsimp only [JsonValue.asArr, Option.getD]
  rw [h2]

theorem putBooks_valid_resp_ok (st : GraphState) (bId : Nat) (t : String)
    (as gs : List String) (rec : BookRecord) (ht : t ≠ "")
    (h2 : (runPutQuery st bId t as gs).2 = some rec) :
    (putBooks st (some bId) ⟨some t, .jarr as, .jarr gs⟩).2 = .ok rec := by
  unfold putBooks
  dsimp only
  rw [if_neg (by simp [titleTruthy, ht]), if_neg (by simp [JsonValue.truthy, JsonValue.isArray]),
    if_neg (by simp [JsonValue.truthy, JsonValue.isArray])]
  dsimp only [JsonValue.asArr, Option.getD]
  rw [h2]

theorem runPutQuery_not_found (st : GraphState) (bId : Nat) (t : String)
    (as gs : List String)
    (hf : st.books.find? (fun b => b.nodeId == bId) = none) :
    runPutQuery st bId t as gs = (st, none) := by
  unfold runPutQuery
  rw [hf]

theorem postBooks_valid_eq (st : GraphState) (u t : String) (as gs : List String)
    (ht : t ≠ "") (ha : as ≠ []) (hg : gs ≠ []) :
    postBooks st u ⟨some t, .jarr as, .jarr gs⟩ =
      ((runCreateQuery st u t as gs).1, .ok (runCreateQuery st u t as gs).2) := by
  unfold postBooks
  dsimp only
  rw [if_neg (by simp [titleTruthy, ht]),
    if_neg (by simp [JsonValue.truthy, JsonValue.isArray, JsonValue.arrLen, ha]),
    if_neg (by simp [JsonValue.truthy, JsonValue.isArray, JsonValue.arrLen, hg])]
  rfl

/-! ### Create-query lemmas -/

theorem createdState_WF {st : GraphState} {u t : String} (h : WF st) :
    WF (createdState st u t) := by
  obtain ⟨h1, h2, h3, h4, h5, h6, h7, h8, h9, h10, h11, h12⟩ := h
  have hNfresh : st.nextId ∉ st.bookIds := by
    intro hmem
    rcases List.mem_map.mp hmem with ⟨b, hb, hbe⟩
    exact absurd (hbe ▸ h4 b hb) (Nat.lt_irrefl _)
  refine ⟨?_, h2, h3, ?_, ?_, ?_, h7, h8, h9, h10, ?_, ?_⟩
  · show ((st.books ++ [(⟨st.nextId, u, t⟩ : Book)]).map Book.nodeId).Nodup
    rw [List.map_append]
    refine List.Nodup.append h1 (List.nodup_singleton _) ?_
    intro e he he2
    simp only [List.map_singleton, List.mem_singleton] at he2
    subst he2
    exact hNfresh he
  · intro b' hb'
    rcases List.mem_append.mp hb' with h' | h'
    · exact Nat.lt_succ_of_lt (h4 b' h')
    · rw [List.mem_singleton] at h'
      subst h'
      exact Nat.lt_succ_self _
  · intro a' ha'
    exact Nat.lt_succ_of_lt (h5 a' ha')
  · intro g' hg'
    exact Nat.lt_succ_of_lt (h6 g' hg')
  · intro e he
    refine ⟨(h11 e he).1, ?_⟩
    show e.2 ∈ (st.books ++ [(⟨st.nextId, u, t⟩ : Book)]).map Book.nodeId
    rw [List.map_append]
    exact List.mem_append.mpr (Or.inl (h11 e he).2)
  · intro e he
    refine ⟨?_, (h12 e he).2⟩
    show e.1 ∈ (st.books ++ [(⟨st.nextId, u, t⟩ : Book)]).map Book.nodeId
    rw [List.map_append]
    exact List.mem_append.mpr (Or.inl (h12 e he).1)

theorem createdState_mem {st : GraphState} {u t : String} :
    st.nextId ∈ (createdState st u t).bookIds := by
  show st.nextId ∈ (st.books ++ [(⟨st.nextId, u, t⟩ : Book)]).map Book.nodeId
  rw [List.map_append]
  exact List.mem_append.mpr (Or.inr (by simp))

/-- Net-effect summary of the POST query: a fresh book node is created,
existing nodes and edges survive, and each listed author/genre name ends
up backed by a node linked to the new book. -/
theorem runCreateQuery_spec (st : GraphState) (u t : String) (as gs : List String)
    (h : WF st) :
    WF (runCreateQuery st u t as gs).1 ∧
    ((⟨st.nextId, u, t⟩ : Book) ∈ (runCreateQuery st u t as gs).1.books) ∧
    (∀ a ∈ st.authors, a ∈ (runCreateQuery st u t as gs).1.authors) ∧
    (∀ g ∈ st.genres, g ∈ (runCreateQuery st u t as gs).1.genres) ∧
    (∀ e ∈ st.wrote, e ∈ (runCreateQuery st u t as gs).1.wrote) ∧
    (∀ e ∈ st.inGenre, e ∈ (runCreateQuery st u t as gs).1.inGenre) ∧
    (∀ n ∈ as, ∃ a ∈ (runCreateQuery st u t as gs).1.authors,
      a.name = n ∧ (a.nodeId, st.nextId) ∈ (runCreateQuery st u t as gs).1.wrote) ∧
    (∀ n ∈ gs, ∃ g ∈ (runCreateQuery st u t as gs).1.genres,
      g.name = n ∧ (st.nextId, g.nodeId) ∈ (runCreateQuery st u t as gs).1.inGenre) := by
  have hWF1 : WF (createdState st u t) := createdState_WF h
  have hb1 : st.nextId ∈ (createdState st u t).bookIds := createdState_mem
  have hWF4 := mergeAuthors_WF st.nextId as _ hWF1 hb1
  have hb4 : st.nextId ∈ (mergeAuthors (createdState st u t) st.nextId as).bookIds := by
    rw [mergeAuthors_bookIds]
    exact hb1
  have hWF5 := mergeGenres_WF st.nextId gs _ hWF4 hb4
  show WF (mergeGenres (mergeAuthors (createdState st u t) st.nextId as) st.nextId gs) ∧ _
  refine ⟨hWF5, ?_, ?_, ?_, ?_, ?_, ?_, ?_⟩
  · show (⟨st.nextId, u, t⟩ : Book) ∈
      (mergeGenres (mergeAuthors (createdState st u t) st.nextId as) st.nextId gs).books
    rw [mergeGenres_books, mergeAuthors_books]
    exact List.mem_append.mpr (Or.inr (by simp))
  · intro a ha
    show a ∈ (mergeGenres (mergeAuthors (createdState st u t) st.nextId as) st.nextId gs).authors
    rw [mergeGenres_authors]
    exact mergeAuthors_authors_mono ha
  · intro g hg
    show g ∈ (mergeGenres (mergeAuthors (createdState st u t) st.nextId as) st.nextId gs).genres
    refine mergeGenres_genres_mono ?_
    rw [mergeAuthors_genres]
    exact hg
  · intro e he
    show e ∈ (mergeGenres (mergeAuthors (createdState st u t) st.nextId as) st.nextId gs).wrote
    rw [mergeGenres_wrote]
    exact mergeAuthors_wrote_mono he
  · intro e he
    show e ∈ (mergeGenres (mergeAuthors (createdState st u t) st.nextId as) st.nextId gs).inGenre
    refine mergeGenres_inGenre_mono ?_
    rw [mergeAuthors_inGenre]
    exact he
  · intro n hn
    obtain ⟨a, ha, han, hw⟩ := mergeAuthors_linked st.nextId as (createdState st u t) n hn
    refine ⟨a, ?_, han, ?_⟩
    · show a ∈ (mergeGenres (mergeAuthors (createdState st u t) st.nextId as) st.nextId gs).authors
      rw [mergeGenres_authors]
      exact ha
    · show (a.nodeId, st.nextId) ∈
        (mergeGenres (mergeAuthors (createdState st u t) st.nextId as) st.nextId gs).wrote
      rw [mergeGenres_wrote]
      exact hw
  · intro n hn
    obtain ⟨g, hg, hgn, hw⟩ :=
      mergeGenres_linked st.nextId gs (mergeAuthors (createdState st u t) st.nextId as) n hn
    exact ⟨g, hg, hgn, hw⟩

theorem count_author_name_eq_one {st : GraphState}
    (hn : (st.authors.map Author.name).Nodup)
    {n : String} (hex : ∃ a ∈ st.authors, a.name = n) :
    (st.authors.map Author.name).count n = 1 := by
  obtain ⟨a, ha, rfl⟩ := hex
  exact List.count_eq_one_of_mem hn (List.mem_map_of_mem _ ha)

/-! ### DELETE lemmas -/

theorem filter_key_length_eq_one {α : Type} (f : α → Nat) :
    ∀ (l : List α) (k : Nat), (l.map f).Nodup → (∃ x ∈ l, f x = k) →
      (l.filter (fun x => f x == k)).length = 1 := by
  intro l k hn hex
  induction l with
  | nil =>
      rcases hex with ⟨x, hx, _⟩
      exact absurd hx (List.not_mem_nil x)
  | cons a l ih =>
      rw [List.map_cons, List.nodup_cons] at hn
      by_cases hak : f a = k
      · rw [List.filter_cons_of_pos (by simp [hak])]
        have hnil : l.filter (fun x => f x == k) = [] := by
          refine List.filter_eq_nil_iff.mpr ?_
          intro b hb
          simp only [beq_iff_eq]
          intro hbk
          exact hn.1 (by rw [hak, ← hbk]; exact List.mem_map_of_mem f hb)
        rw [hnil]
        rfl
      · rw [List.filter_cons_of_neg (by simp [hak])]
        rcases hex with ⟨x, hx, hfx⟩
        rcases List.mem_cons.mp hx with rfl | hx'
        · exact absurd hfx hak
        · exact ih hn.2 ⟨x, hx', hfx⟩

theorem deleteBooks_found (st : GraphState) (bId : Nat) (h1 : st.bookIds.Nodup)
    (hex : ∃ b ∈ st.books, b.nodeId = bId) :
    (deleteBooks st (some bId)).2 = .ok 1 ∧
    (∀ b ∈ (deleteBooks st (some bId)).1.books, b.nodeId ≠ bId) ∧
    (∀ e ∈ (deleteBooks st (some bId)).1.wrote, e.1 ≠ bId ∧ e.2 ≠ bId) ∧
    (∀ e ∈ (deleteBooks st (some bId)).1.inGenre, e.1 ≠ bId ∧ e.2 ≠ bId) ∧
    (∀ a ∈ st.authors, a ∈ (deleteBooks st (some bId)).1.authors) ∧
    (∀ g ∈ st.genres, g ∈ (deleteBooks st (some bId)).1.genres) := by
  obtain ⟨b0, hb0, hb0id⟩ := hex
  have hb0f : b0 ∈ st.books.filter (fun b => b.nodeId == bId) :=
    List.mem_filter.mpr ⟨hb0, by simp [hb0id]⟩
  have hne : ¬ ((st.books.filter (fun b => b.nodeId == bId)).isEmpty = true) := by
    simp only [List.isEmpty_iff]
    intro hnil
    rw [hnil] at hb0f
    exact absurd hb0f (List.not_mem_nil b0)
  have hlen : (st.books.filter (fun b => b.nodeId == bId)).length = 1 :=
    filter_key_length_eq_one Book.nodeId st.books bId h1 ⟨b0, hb0, hb0id⟩
  unfold deleteBooks runDeleteQuery
  dsimp only
  rw [if_neg hne]
  refine ⟨by rw [hlen], ?_, ?_, ?_, ?_, ?_⟩
  · intro b hb
    have := List.of_mem_filter hb
    simpa using this
  · intro e he
    have := List.of_mem_filter he
    simp only [decide_eq_true_eq, not_or] at this
    exact this
  · intro e he
    have := List.of_mem_filter he
    simp only [decide_eq_true_eq, not_or] at this
    exact this
  · intro a ha
    exact ha
  · intro g hg
    exact hg

theorem deleteBooks_nomatch (st : GraphState) (bId : Nat)
    (hno : ∀ b ∈ st.books, b.nodeId ≠ bId) :
    deleteBooks st (some bId) = (st, .ok 0) := by
  unfold deleteBooks runDeleteQuery
  dsimp only
  have hnil : st.books.filter (fun b => b.nodeId == bId) = [] :=
    List.filter_eq_nil_iff.mpr (fun b hb => by simp [hno b hb])
  rw [hnil]
  rfl

/-! ### GET condition lemmas -/

theorem mem_buildConditions (p : GetParams) (c : Cond) :
    c ∈ buildConditions p ↔
      ((∃ n, p.id = some n ∧ c = Cond.condId n) ∨
       (∃ s, p.title = some s ∧ s ≠ "" ∧ c = Cond.condTitle s) ∨
       (∃ s, p.bookId = some s ∧ s ≠ "" ∧ c = Cond.condBookId s) ∨
       (p.authors ≠ [] ∧ c = Cond.condAuthors p.authors) ∨
       (p.genres ≠ [] ∧ c = Cond.condGenres p.genres)) := by
  rcases p with ⟨i, ti, bk, as, gs⟩
  unfold buildConditions
  rcases i with _ | n <;> rcases ti with _ | s <;> rcases bk with _ | s2 <;>
    simp [List.mem_append, List.length_pos]

theorem buildConditions_length (p : GetParams) :
    (buildConditions p).length =
      (if p.id.isSome then 1 else 0) + (if strPresent p.title then 1 else 0) +
      (if strPresent p.bookId then 1 else 0) + (if p.authors ≠ [] then 1 else 0) +
      (if p.genres ≠ [] then 1 else 0) := by
  rcases p with ⟨i, ti, bk, as, gs⟩
  unfold buildConditions strPresent
  rcases i with _ | n <;> rcases ti with _ | s <;> rcases bk with _ | s2 <;>
    simp [List.length_append, List.length_pos] <;> split_ifs <;> simp_all

theorem evalCond_condId {st : GraphState} {b : Book} {n : Nat} :
    evalCond st b (.condId n) = true ↔ b.nodeId = n := by
  simp [evalCond]

theorem evalCond_condTitle {st : GraphState} {b : Book} {s : String} :
    evalCond st b (.condTitle s) = true ↔ CIContainsP b.title s := by
  simp [evalCond, ciContains, CIContainsP]

theorem evalCond_condBookId {st : GraphState} {b : Book} {s : String} :
    evalCond st b (.condBookId s) = true ↔ b.bookId = s := by
  simp [evalCond]

theorem evalCond_condAuthors {st : GraphState} {b : Book} {terms : List String} :
    evalCond st b (.condAuthors terms) = true ↔
      ∃ a ∈ st.authors, (a.nodeId, b.nodeId) ∈ st.wrote ∧
        ∃ trm ∈ terms, CIContainsP a.name trm := by
  simp [evalCond, List.any_eq_true, Bool.and_eq_true, mem_contains_iff,
    ciContains, CIContainsP]

theorem evalCond_condGenres {st : GraphState} {b : Book} {terms : List String} :
    evalCond st b (.condGenres terms) = true ↔
      ∃ g ∈ st.genres, (b.nodeId, g.nodeId) ∈ st.inGenre ∧
        ∃ trm ∈ terms, CIContainsP g.name trm := by
  simp [evalCond, List.any_eq_true, Bool.and_eq_true, mem_contains_iff,
    ciContains, CIContainsP]

/-! ### Claim theorems -/

/-- Claim C1: update performs a full replace of relationships — after a
successful PUT with a non-empty title and non-empty author/genre lists on
an existing book, the book's WROTE edges correspond exactly to the
supplied author list and its IN_GENRE edges exactly to the supplied genre
list; no prior edge outside the new lists survives, while the previously
linked Author/Genre entities themselves still exist. -/
theorem put_full_replace (st : GraphState) (bId : Nat) (t : String)
    (authors genres : List String) (h : WF st)
    (hex : ∃ b ∈ st.books, b.nodeId = bId) (ht : t ≠ "")
    (ha : authors ≠ []) (hg : genres ≠ []) :
    PutFullReplace st bId t authors genres := by
  obtain ⟨hWF', hbook, hamono, hgmono, hwn, hgn, hsome, hnsa, hnsg⟩ :=
    runPutQuery_spec st bId t authors genres h hex
  have hstate := putBooks_valid_state st bId t authors genres ht
  obtain ⟨rec, hrec⟩ := Option.isSome_iff_exists.mp (hsome.mpr ⟨ha, hg⟩)
  refine ⟨⟨rec, putBooks_valid_resp_ok st bId t authors genres rec ht hrec⟩,
    ?_, ?_, ?_, ?_, ?_, ?_⟩
  · intro m
    rw [hstate]
    exact hwn m
  · intro m
    rw [hstate]
    constructor
    · intro hm
      exact ((hgn m).mp hm).2
    · intro hm
      exact (hgn m).mpr ⟨ha, hm⟩
  · intro a ha'
    rw [hstate]
    exact hamono a ha'
  · intro g hg'
    rw [hstate]
    exact hgmono g hg'
  · intro a ha' hnot
    rw [hstate]
    exact hnsa a ha' hnot
  · intro g hg' hnot
    rw [hstate]
    exact hnsg g hg' hnot

theorem put_full_replace_witness :
    WF ⟨1, [⟨0, "u", "Old"⟩], [], [], [], []⟩ ∧
    (∃ b ∈ (⟨1, [⟨0, "u", "Old"⟩], [], [], [], []⟩ : GraphState).books, b.nodeId = 0) ∧
    "T" ≠ "" ∧ (["A"] : List String) ≠ [] ∧ (["X"] : List String) ≠ [] ∧
    PutFullReplace ⟨1, [⟨0, "u", "Old"⟩], [], [], [], []⟩ 0 "T" ["A"] ["X"] :=
  ⟨by decide, by decide, by decide, by decide, by decide,
    put_full_replace _ 0 "T" ["A"] ["X"] (by decide) (by decide) (by decide)
      (by decide) (by decide)⟩

/-- Claim C2 (counterexample): the response can be the 404 "Book not
found" error even though a book with the requested internal identifier
exists — it suffices to send an empty authors array. -/
theorem put_404_counterexample :
    (∃ b ∈ (⟨1, [⟨0, "u", "Old"⟩], [], [], [], []⟩ : GraphState).books, b.nodeId = 0) ∧
    (putBooks ⟨1, [⟨0, "u", "Old"⟩], [], [], [], []⟩ (some 0)
      ⟨some "T", .jarr [], .jarr ["G"]⟩).2 = PutResp.notFound :=
  ⟨by decide, by decide⟩

/-- Claim C2 (amended): a PUT without the `id` query parameter answers
400 before anything else; with an id but no matching book it answers 404
and performs no write; and when the book exists and both arrays are
non-empty the response is a success, never 404. -/
theorem put_resp_contract (st : GraphState) (bId : Nat) (t : String)
    (authors genres : List String) (h : WF st) (ht : t ≠ "") :
    PutRespContract st bId t authors genres := by
  refine ⟨⟨rfl, rfl⟩, ?_, ?_⟩
  · intro hno
    have hf : st.books.find? (fun b => b.nodeId == bId) = none :=
      List.find?_eq_none.mpr (fun b hb => by simp [hno b hb])
    have hrun := runPutQuery_not_found st bId t authors genres hf
    refine ⟨?_, rfl⟩
    have h1 := putBooks_valid_state st bId t authors genres ht
    have h2 := putBooks_valid_resp_nf st bId t authors genres ht (by rw [hrun])
    refine Prod.ext ?_ h2
    rw [h1, hrun]
  · intro ha hg hex
    obtain ⟨_, _, _, _, _, _, hsome, _, _⟩ :=
      runPutQuery_spec st bId t authors genres h hex
    obtain ⟨rec, hrec⟩ := Option.isSome_iff_exists.mp (hsome.mpr ⟨ha, hg⟩)
    exact ⟨rec, putBooks_valid_resp_ok st bId t authors genres rec ht hrec⟩

theorem put_resp_contract_witness :
    WF ⟨1, [⟨0, "u", "Old"⟩], [], [], [], []⟩ ∧ "T" ≠ "" ∧
    PutRespContract ⟨1, [⟨0, "u", "Old"⟩], [], [], [], []⟩ 0 "T" ["A"] ["X"] :=
  ⟨by decide, by decide, put_resp_contract _ 0 "T" ["A"] ["X"] (by decide) (by decide)⟩

/-- Claim C3: a PUT with an empty authors or genres array on an existing
book passes input validation yet yields the 404 "Book not found"
response, after the query has already set the book's title, replaced the
WROTE edges by the supplied (possibly empty) author list, and left the
book with no IN_GENRE edge — state mutated despite an error response. -/
theorem put_empty_list_mutates (st : GraphState) (bId : Nat) (t : String)
    (authors genres : List String) (h : WF st)
    (hex : ∃ b ∈ st.books, b.nodeId = bId) (ht : t ≠ "")
    (hempty : authors = [] ∨ genres = []) :
    PutEmptyListMutation st bId t authors genres := by
  obtain ⟨hWF', hbook, hamono, hgmono, hwn, hgn, hsome, hnsa, hnsg⟩ :=
    runPutQuery_spec st bId t authors genres h hex
  have hstate := putBooks_valid_state st bId t authors genres ht
  have hnone : (runPutQuery st bId t authors genres).2 = none := by
    cases hr : (runPutQuery st bId t authors genres).2 with
    | none => rfl
    | some rec =>
        have hcontra := hsome.mp (by rw [hr]; rfl)
        rcases hempty with he | he
        · exact absurd he hcontra.1
        · exact absurd he hcontra.2
  refine ⟨putBooks_valid_resp_nf st bId t authors genres ht hnone, rfl, ?_, ?_, ?_⟩
  · rw [hstate]
    exact hbook
  · intro m
    rw [hstate]
    exact hwn m
  · intro m hm
    rw [hstate] at hm
    have hmm := (hgn m).mp hm
    rcases hempty with he | he
    · exact hmm.1 he
    · rw [he] at hmm
      exact absurd hmm.2 (List.not_mem_nil m)

theorem put_empty_list_mutates_witness :
    WF ⟨1, [⟨0, "u", "Old"⟩], [], [], [], []⟩ ∧
    (∃ b ∈ (⟨1, [⟨0, "u", "Old"⟩], [], [], [], []⟩ : GraphState).books, b.nodeId = 0) ∧
    "T" ≠ "" ∧ (([] : List String) = [] ∨ (["X"] : List String) = []) ∧
    PutEmptyListMutation ⟨1, [⟨0, "u", "Old"⟩], [], [], [], []⟩ 0 "T" [] ["X"] :=
  ⟨by decide, by decide, by decide, by decide,
    put_empty_list_mutates _ 0 "T" [] ["X"] (by decide) (by decide) (by decide)
      (by decide)⟩

/-- Claim C4: the search query contains exactly one condition per present
filter and none per absent filter, the conditions are combined
conjunctively, zero conditions match every book, and an empty author or
genre list contributes no condition at all (behaving as an omitted
filter, not as match-nothing). -/
theorem get_one_condition_per_filter (st : GraphState) (p : GetParams) :
    ((buildConditions p).length =
      (if p.id.isSome then 1 else 0) + (if strPresent p.title then 1 else 0) +
      (if strPresent p.bookId then 1 else 0) + (if p.authors ≠ [] then 1 else 0) +
      (if p.genres ≠ [] then 1 else 0)) ∧
    (getBooks st p =
      (st.books.filter (fun b => (buildConditions p).all (evalCond st b))).map
        (bookRecordOf st)) ∧
    (buildConditions p = [] → getBooks st p = st.books.map (bookRecordOf st)) ∧
    (p.id = none → strPresent p.title = false → strPresent p.bookId = false →
      p.authors = [] → p.genres = [] → buildConditions p = []) ∧
    (p.authors = [] → ∀ ts, Cond.condAuthors ts ∉ buildConditions p) ∧
    (p.genres = [] → ∀ ts, Cond.condGenres ts ∉ buildConditions p) := by
  refine ⟨buildConditions_length p, rfl, ?_, ?_, ?_, ?_⟩
  · intro hnil
    unfold getBooks
    rw [hnil]
    simp [List.filter_true]
  · intro h1 h2 h3 h4 h5
    rcases p with ⟨i, ti, bk, as, gs⟩
    dsimp only at h1 h2 h3 h4 h5
    subst h1
    subst h4
    subst h5
    unfold buildConditions
    rcases ti with _ | s <;> rcases bk with _ | s2 <;> simp_all [strPresent]
  · intro hnil ts hmem
    rcases (mem_buildConditions p _).mp hmem with
      ⟨n, _, he⟩ | ⟨s, _, _, he⟩ | ⟨s, _, _, he⟩ | ⟨hne, he⟩ | ⟨hne, he⟩
    · exact absurd he (by simp)
    · exact absurd he (by simp)
    · exact absurd he (by simp)
    · exact hne hnil
    · exact absurd he (by simp)
  · intro hnil ts hmem
    rcases (mem_buildConditions p _).mp hmem with
      ⟨n, _, he⟩ | ⟨s, _, _, he⟩ | ⟨s, _, _, he⟩ | ⟨hne, he⟩ | ⟨hne, he⟩
    · exact absurd he (by simp)
    · exact absurd he (by simp)
    · exact absurd he (by simp)
    · exact absurd he (by simp)
    · exact hne hnil

/-- Claim C5: search match semantics — a book passes the assembled WHERE
clause exactly when it satisfies every present filter: internal identity
equality, case-insensitive substring containment for the title, exact
match for the catalog id, and for the author (resp. genre) filter the
existence of a linked author (resp. genre) whose name case-insensitively
contains at least one supplied term (OR within the term list, AND across
filter categories). -/
theorem get_match_semantics (st : GraphState) (p : GetParams) (b : Book) :
    (buildConditions p).all (evalCond st b) = true ↔
      ((∀ n, p.id = some n → b.nodeId = n) ∧
       (∀ s, p.title = some s → s ≠ "" → CIContainsP b.title s) ∧
       (∀ s, p.bookId = some s → s ≠ "" → b.bookId = s) ∧
       (p.authors ≠ [] → ∃ a ∈ st.authors, (a.nodeId, b.nodeId) ∈ st.wrote ∧
         ∃ trm ∈ p.authors, CIContainsP a.name trm) ∧
       (p.genres ≠ [] → ∃ g ∈ st.genres, (b.nodeId, g.nodeId) ∈ st.inGenre ∧
         ∃ trm ∈ p.genres, CIContainsP g.name trm)) := by
  rw [List.all_eq_true]
  constructor
  · intro hall
    refine ⟨?_, ?_, ?_, ?_, ?_⟩
    · intro n hn
      exact evalCond_condId.mp
        (hall _ ((mem_buildConditions p _).mpr (Or.inl ⟨n, hn, rfl⟩)))
    · intro s hs hne
      exact evalCond_condTitle.mp
        (hall _ ((mem_buildConditions p _).mpr (Or.inr (Or.inl ⟨s, hs, hne, rfl⟩))))
    · intro s hs hne
      exact evalCond_condBookId.mp
        (hall _ ((mem_buildConditions p _).mpr (Or.inr (Or.inr (Or.inl ⟨s, hs, hne, rfl⟩)))))
    · intro hne
      exact evalCond_condAuthors.mp
        (hall _ ((mem_buildConditions p _).mpr (Or.inr (Or.inr (Or.inr (Or.inl ⟨hne, rfl⟩))))))
    · intro hne
      exact evalCond_condGenres.mp
        (hall _ ((mem_buildConditions p _).mpr (Or.inr (Or.inr (Or.inr (Or.inr ⟨hne, rfl⟩))))))
  · rintro ⟨hid, hti, hbk, hau, hge⟩ c hc
    rcases (mem_buildConditions p c).mp hc with
      ⟨n, hn, rfl⟩ | ⟨s, hs, hne, rfl⟩ | ⟨s, hs, hne, rfl⟩ | ⟨hne, rfl⟩ | ⟨hne, rfl⟩
    · exact evalCond_condId.mpr (hid n hn)
    · exact evalCond_condTitle.mpr (hti s hs hne)
    · exact evalCond_condBookId.mpr (hbk s hs hne)
    · exact evalCond_condAuthors.mpr (hau hne)
    · exact evalCond_condGenres.mpr (hge hne)

/-- Claim C6: every GET result contains one aggregated record per
matching book with matching books pairwise distinct, the author and genre
name lists of each record are duplicate-free, and a book without linked
authors or genres gets an empty list for that field. -/
theorem get_dedup (st : GraphState) (p : GetParams) (h : WF st) :
    GetDedup st p := by
  obtain ⟨h1, h2, h3, h4, h5, h6, h7, h8, h9, h10, h11, h12⟩ := h
  refine ⟨rfl, ?_, ?_, ?_, ?_⟩
  · exact List.Nodup.sublist
      (List.Sublist.map Book.nodeId (List.filter_sublist _)) h1
  · intro r hr
    rcases List.mem_map.mp hr with ⟨b, _, rfl⟩
    constructor
    · exact List.Nodup.sublist
        (List.Sublist.map Author.name (List.filter_sublist _)) h7
    · exact List.Nodup.sublist
        (List.Sublist.map Genre.name (List.filter_sublist _)) h8
  · intro b _ hno
    show ((st.authors.filter
      (fun a => st.wrote.contains (a.nodeId, b.nodeId))).map Author.name) = []
    have hnil : st.authors.filter
        (fun a => st.wrote.contains (a.nodeId, b.nodeId)) = [] := by
      refine List.filter_eq_nil_iff.mpr ?_
      intro a ha hc
      exact hno a ha (mem_contains_iff.mp hc)
    rw [hnil]
    rfl
  · intro b _ hno
    show ((st.genres.filter
      (fun g => st.inGenre.contains (b.nodeId, g.nodeId))).map Genre.name) = []
    have hnil : st.genres.filter
        (fun g => st.inGenre.contains (b.nodeId, g.nodeId)) = [] := by
      refine List.filter_eq_nil_iff.mpr ?_
      intro g hg hc
      exact hno g hg (mem_contains_iff.mp hc)
    rw [hnil]
    rfl

theorem get_dedup_witness :
    WF ⟨1, [⟨0, "u", "T"⟩], [], [], [], []⟩ ∧
    GetDedup ⟨1, [⟨0, "u", "T"⟩], [], [], [], []⟩ ⟨none, none, none, [], []⟩ :=
  ⟨by decide, get_dedup _ _ (by decide)⟩

/-- Claim C7: POST validation — a falsy title, an invalid (missing,
non-array or empty) authors value, and an invalid genres value each fail
with their own distinct error message while the store state is returned
unchanged, and every POST response (failure included) carries HTTP status
200 with `success` false on the error branch. -/
theorem post_validation (st : GraphState) (u : String) (body : ReqBody) :
    (titleTruthy body.title = false →
      postBooks st u body = (st, .err "Book title missing")) ∧
    (titleTruthy body.title = true →
      (¬ body.authors.truthy = true ∨ ¬ body.authors.isArray = true ∨
        body.authors.arrLen = 0) →
      postBooks st u body = (st, .err "At least one author required")) ∧
    (titleTruthy body.title = true →
      body.authors.truthy = true → body.authors.isArray = true →
      body.authors.arrLen ≠ 0 →
      (¬ body.genres.truthy = true ∨ ¬ body.genres.isArray = true ∨
        body.genres.arrLen = 0) →
      postBooks st u body = (st, .err "At least one genre required")) ∧
    ("Book title missing" ≠ "At least one author required" ∧
      "Book title missing" ≠ "At least one genre required" ∧
      "At least one author required" ≠ "At least one genre required") ∧
    (∀ r : PostResp, r.httpStatus = 200) ∧
    (∀ m : String, (PostResp.err m).success = false) := by
  refine ⟨?_, ?_, ?_, by decide, ?_, ?_⟩
  · intro hf
    unfold postBooks
    rw [if_pos (by simp [hf])]
  · intro ht hbad
    unfold postBooks
    rw [if_neg (by simp [ht]), if_pos hbad]
  · intro ht hta htb htc hbad
    unfold postBooks
    rw [if_neg (by simp [ht]), if_neg (by simp [hta, htb, htc]), if_pos hbad]
  · intro r
    cases r <;> rfl
  · intro m
    rfl

/-- Claim C8: author identity is resolved by exact name — two book
creations both listing author `n` leave exactly one Author entity named
`n`, holding one WROTE edge to each of the two new books, and the edge
lists never contain a duplicate pair. -/
theorem shared_author_single_entity (st : GraphState) (u1 t1 u2 t2 : String)
    (as1 gs1 as2 gs2 : List String) (n : String) (h : WF st)
    (ht1 : t1 ≠ "") (ha1 : as1 ≠ []) (hg1 : gs1 ≠ [])
    (ht2 : t2 ≠ "") (ha2 : as2 ≠ []) (hg2 : gs2 ≠ [])
    (hn1 : n ∈ as1) (hn2 : n ∈ as2) :
    SharedAuthorMerged st u1 t1 u2 t2 as1 gs1 as2 gs2 n := by
  have he1 := postBooks_valid_eq st u1 t1 as1 gs1 ht1 ha1 hg1
  obtain ⟨hWF1, _, _, _, hemono1, _, hlink1, _⟩ :=
    runCreateQuery_spec st u1 t1 as1 gs1 h
  have he2 := postBooks_valid_eq (runCreateQuery st u1 t1 as1 gs1).1 u2 t2 as2 gs2
    ht2 ha2 hg2
  obtain ⟨hWF2, _, hamono2, _, hemono2, _, hlink2, _⟩ :=
    runCreateQuery_spec (runCreateQuery st u1 t1 as1 gs1).1 u2 t2 as2 gs2 hWF1
  have hWF2full := hWF2
  unfold SharedAuthorMerged
  rw [he1]
  dsimp only
  rw [he2]
  dsimp only
  obtain ⟨_, _, _, _, _, _, hnames2, _, hwn2, hgn2, _, _⟩ := hWF2
  obtain ⟨a1, ha1st1, ha1n, hw1⟩ := hlink1 n hn1
  obtain ⟨a2, ha2st2, ha2n, hw2⟩ := hlink2 n hn2
  have ha1st2 := hamono2 a1 ha1st1
  have heq : a1 = a2 :=
    List.inj_on_of_nodup_map hnames2 ha1st2 ha2st2 (by rw [ha1n, ha2n])
  refine ⟨?_, ⟨a2, ha2st2, ha2n, ?_, hw2⟩, hwn2, hgn2, hWF2full⟩
  · exact count_author_name_eq_one hnames2 ⟨a2, ha2st2, ha2n⟩
  · rw [← heq]
    exact hemono2 _ hw1

theorem shared_author_single_entity_witness :
    WF ⟨0, [], [], [], [], []⟩ ∧ "B1" ≠ "" ∧ "B2" ≠ "" ∧
    (["Shared"] : List String) ≠ [] ∧ (["X"] : List String) ≠ [] ∧
    "Shared" ∈ (["Shared"] : List String) ∧
    SharedAuthorMerged ⟨0, [], [], [], [], []⟩ "u1" "B1" "u2" "B2"
      ["Shared"] ["X"] ["Shared"] ["Y"] "Shared" :=
  ⟨by decide, by decide, by decide, by decide, by decide, by decide,
    shared_author_single_entity _ "u1" "B1" "u2" "B2" ["Shared"] ["X"]
      ["Shared"] ["Y"] "Shared" (by decide) (by decide) (by decide) (by decide)
      (by decide) (by decide) (by decide) (by decide) (by decide)⟩

/-- Claim C9: DELETE answers 400 when the `id` parameter is absent;
deleting an existing book removes the node and every incident edge in
both directions and reports `deletedCount` 1; deleting a nonexistent
identity is a success with `deletedCount` 0, not an error, and changes
nothing. -/
theorem delete_contract (st : GraphState) (h : WF st) :
    (deleteBooks st none = (st, .badRequest) ∧
      DeleteResp.badRequest.httpStatus = 400) ∧
    (∀ bId, (∃ b ∈ st.books, b.nodeId = bId) → DeleteRemovesBook st bId) ∧
    (∀ bId, (∀ b ∈ st.books, b.nodeId ≠ bId) →
      deleteBooks st (some bId) = (st, .ok 0)) := by
  refine ⟨⟨rfl, rfl⟩, ?_, ?_⟩
  · intro bId hex
    exact deleteBooks_found st bId h.1 hex
  · intro bId hno
    exact deleteBooks_nomatch st bId hno

theorem delete_contract_witness :
    WF ⟨1, [⟨0, "u", "T"⟩], [], [], [], []⟩ ∧
    ((deleteBooks ⟨1, [⟨0, "u", "T"⟩], [], [], [], []⟩ none =
        (⟨1, [⟨0, "u", "T"⟩], [], [], [], []⟩, .badRequest) ∧
      DeleteResp.badRequest.httpStatus = 400) ∧
    (∀ bId, (∃ b ∈ (⟨1, [⟨0, "u", "T"⟩], [], [], [], []⟩ : GraphState).books,
      b.nodeId = bId) → DeleteRemovesBook ⟨1, [⟨0, "u", "T"⟩], [], [], [], []⟩ bId) ∧
    (∀ bId, (∀ b ∈ (⟨1, [⟨0, "u", "T"⟩], [], [], [], []⟩ : GraphState).books,
      b.nodeId ≠ bId) →
      deleteBooks ⟨1, [⟨0, "u", "T"⟩], [], [], [], []⟩ (some bId) =
        (⟨1, [⟨0, "u", "T"⟩], [], [], [], []⟩, .ok 0))) :=
  ⟨by decide, delete_contract _ (by decide)⟩

theorem putBooks_no_server_error (st : GraphState) (bId : Nat) (t : String)
    (as gs : List String) (ht : t ≠ "") :
    ∀ msg, (putBooks st (some bId) ⟨some t, .jarr as, .jarr gs⟩).2 ≠
      PutResp.serverError msg := by
  intro msg
  cases hr : (runPutQuery st bId t as gs).2 with
  | none =>
      rw [putBooks_valid_resp_nf st bId t as gs ht hr]
      intro hcon
      exact PutResp.noConfusion hcon
  | some rec =>
      rw [putBooks_valid_resp_ok st bId t as gs rec ht hr]
      intro hcon
      exact PutResp.noConfusion hcon

/-- Claim C10: validation asymmetry — POST rejects an empty authors or
genres array (with no write performed), while PUT's validation accepts
empty arrays: with a non-empty title and array-valued fields the PUT
handler never produces the thrown-validation 500 response. -/
theorem validation_asymmetry (st : GraphState) (u t : String)
    (as2 gs : List String) (ht : t ≠ "") :
    ValidationAsymmetry st u t as2 gs := by
  refine ⟨?_, ?_, ?_, ?_⟩
  · unfold postBooks
    dsimp only
    have hc : ¬(JsonValue.jarr ([] : List String)).truthy = true ∨
        ¬(JsonValue.jarr ([] : List String)).isArray = true ∨
        (JsonValue.jarr ([] : List String)).arrLen = 0 :=
      Or.inr (Or.inr rfl)
    rw [if_neg (by simp [titleTruthy, ht]), if_pos hc]
  · intro hne
    unfold postBooks
    dsimp only
    have hc : ¬(JsonValue.jarr ([] : List String)).truthy = true ∨
        ¬(JsonValue.jarr ([] : List String)).isArray = true ∨
        (JsonValue.jarr ([] : List String)).arrLen = 0 :=
      Or.inr (Or.inr rfl)
    rw [if_neg (by simp [titleTruthy, ht]),
      if_neg (by simp [JsonValue.truthy, JsonValue.isArray, JsonValue.arrLen, hne]),
      if_pos hc]
  · intro bId msg
    exact putBooks_no_server_error st bId t [] gs ht msg
  · intro bId msg
    exact putBooks_no_server_error st bId t as2 [] ht msg

theorem validation_asymmetry_witness :
    "T" ≠ "" ∧ ValidationAsymmetry ⟨0, [], [], [], [], []⟩ "u" "T" ["A"] ["X"] :=
  ⟨by decide, validation_asymmetry _ "u" "T" ["A"] ["X"] (by decide)⟩
